import Mathlib

/-!
Shallow embedding of the `large_table` crate (tabular data engine).

Source files modelled: `src/value.rs`, `src/row.rs`, `src/row_table.rs`,
`src/mmap_table.rs`, `src/lib.rs`, `src/table_error.rs`.

Modelling conventions:
* Rust `Result<T, E>` becomes `Except E T`; a Rust panic (`unwrap`/`expect`
  on a failing parse) becomes `Option.none` of an `Option` result.
* The external collaborators declared out of scope by the crate (the CSV
  tokenizer, and the `dtparse`/`chrono` date parsers) are passed in as
  function parameters: the tokenizer's output is a list of records (lists
  of field strings or of byte-offset pairs), and the datetime parser is a
  `String → Option DTRec` argument.
* `i64` is `Int` with an explicit range check; `f64` values are modelled
  as exact decimal rationals (`Rat`): every float literal appearing in the
  claims is handled identically by Rust's nearest-double rounding on both
  sides of each equation, so the exact-decimal abstraction preserves the
  truth of those equations.  Non-finite floats do not arise in any claim.
-/

namespace LTab

/-- Abbreviation used inside `Value.*` declarations, where the `Value.String`
constructor shadows the `String` type. -/
abbrev Str := String

/-- Model of `table_error.rs` `TableError`: an error carrying a reason string. -/
structure TableError where
  reason : String
deriving DecidableEq, Repr

/-- Model of `chrono::NaiveDate`: the date component of a parsed datetime. -/
structure DateRec where
  year : Int
  month : Nat
  day : Nat
deriving DecidableEq, Repr

/-- Model of `chrono::NaiveTime` (nanoseconds omitted: no input reaching the
datetime parser in `Value::new` can contain a fraction separator, since `.`
and `,` are rejected by the character scan). -/
structure TimeRec where
  hour : Nat
  minute : Nat
  second : Nat
deriving DecidableEq, Repr

/-- Model of `chrono::NaiveDateTime` as produced by `dtparse::parse`. -/
structure DTRec where
  year : Int
  month : Nat
  day : Nat
  hour : Nat
  minute : Nat
  second : Nat
deriving DecidableEq, Repr

/-- `NaiveDateTime::date()`. -/
def DTRec.date (dt : DTRec) : DateRec := ⟨dt.year, dt.month, dt.day⟩

/-- `NaiveDateTime::time()`. -/
def DTRec.time (dt : DTRec) : TimeRec := ⟨dt.hour, dt.minute, dt.second⟩

/-- Model of `value.rs` `Value`.  `Float` carries an exact decimal rational
(see the file header for the f64 abstraction). -/
inductive Value where
  | String : String → Value
  | DateTime : DTRec → Value
  | Date : DateRec → Value
  | Time : TimeRec → Value
  | Integer : Int → Value
  | Float : Rat → Value
  | Empty : Value
deriving DecidableEq, Repr

/-- Model of `value.rs` `ValueType`. -/
inductive ValueType where
  | String : ValueType
  | DateTime : ValueType
  | DateTimeFormat : String → ValueType
  | DateFormat : String → ValueType
  | TimeFormat : String → ValueType
  | Number : ValueType
  | Integer : ValueType
  | Float : ValueType
  | Empty : ValueType
deriving DecidableEq, Repr

/-- The non-separator characters accepted by the datetime character scan in
`Value::new`: digits plus `' '  'p' 'P' 'a' 'A' 'm' 'M' 'T' 'Z'`. -/
def dtOtherChar (c : Char) : Bool :=
  c.isDigit || [' ', 'p', 'P', 'a', 'A', 'm', 'M', 'T', 'Z'].any (fun d => c = d)

/-- The `try_fold` in `Value::new` counting `- / :` characters: `some` count
when every character is a separator, digit or allowed letter, else `none`. -/
def dtCharCount (s : String) : Option Int :=
  s.toList.foldl
    (fun acc c => acc.bind (fun sum =>
      if c = '-' ∨ c = '/' ∨ c = ':' then some (sum + 1)
      else if dtOtherChar c then some sum
      else none))
    (some 0)

/-- The `try_fold` in `Value::new` counting `.` characters: `some` count when
every character is a dot, digit or minus, else `none`. -/
def floatCharCount (s : String) : Option Int :=
  s.toList.foldl
    (fun acc c => acc.bind (fun sum =>
      if c = '.' then some (sum + 1)
      else if c.isDigit ∨ c = '-' then some sum
      else none))
    (some 0)

/-- Numeric value of a decimal digit character. -/
def digitVal (c : Char) : Nat := c.toNat - 48

/-- Fold a list of decimal digit characters into a natural number. -/
def digitsToNat (cs : List Char) : Nat :=
  cs.foldl (fun a c => 10 * a + digitVal c) 0

/-- Model of Rust `str::parse::<i64>`: an optional sign followed by at least
one digit, with the result required to fit in `i64`. -/
def parseI64 (s : String) : Option Int :=
  let cs := s.toList
  let signed : Int × List Char :=
    match cs with
    | '-' :: rest => (-1, rest)
    | '+' :: rest => (1, rest)
    | rest => (1, rest)
  let sign := signed.1
  let digits := signed.2
  if digits.isEmpty ∨ ¬ digits.all Char.isDigit then none
  else
    let v : Int := sign * (digitsToNat digits : Int)
    if -(2 ^ 63) ≤ v ∧ v < 2 ^ 63 then some v else none

/-- Split a character list at the first `e`/`E`, returning the mantissa part
and, when an exponent marker is present, the exponent part. -/
def splitExp : List Char → List Char × Option (List Char)
  | [] => ([], none)
  | c :: rest =>
    if c = 'e' ∨ c = 'E' then ([], some rest)
    else
      let r := splitExp rest
      (c :: r.1, r.2)

/-- Mantissa grammar of Rust `str::parse::<f64>`: digits with at most one
dot and at least one digit. -/
def mantissaOk (cs : List Char) : Bool :=
  cs.any Char.isDigit && cs.all (fun c => c.isDigit || c = '.') &&
    cs.count '.' ≤ 1

/-- Exponent grammar of Rust `str::parse::<f64>`: optional sign, then at
least one digit. -/
def expOk (cs : List Char) : Bool :=
  let digits :=
    match cs with
    | '-' :: rest => rest
    | '+' :: rest => rest
    | rest => rest
  ¬ digits.isEmpty && digits.all Char.isDigit

/-- Case-insensitive `inf` / `infinity` / `nan`, accepted by Rust's f64
grammar. -/
def infNanOk (cs : List Char) : Bool :=
  let l := cs.map Char.toLower
  l = "inf".toList ∨ l = "infinity".toList ∨ l = "nan".toList

/-- Whether Rust `str::parse::<f64>` succeeds on `s` (the `FromStr` grammar:
optional sign, then `inf`/`infinity`/`nan` or a mantissa with an optional
exponent). -/
def parseF64ok (s : String) : Bool :=
  let cs :=
    match s.toList with
    | '-' :: rest => rest
    | '+' :: rest => rest
    | rest => rest
  if infNanOk cs then true
  else
    let p := splitExp cs
    mantissaOk p.1 &&
      (match p.2 with
       | none => true
       | some e => expOk e)

/-- Signed value of an exponent character list. -/
def expVal (cs : List Char) : Int :=
  match cs with
  | '-' :: rest => -(digitsToNat rest : Int)
  | '+' :: rest => (digitsToNat rest : Int)
  | rest => (digitsToNat rest : Int)

/-- Exact decimal value produced by Rust `str::parse::<f64>` on a string
matching the grammar (the exact-decimal abstraction of the rounded double;
`inf`/`nan` forms, which carry no finite value, are mapped to 0 and are
outside the scope of every claim). -/
def parseF64val (s : String) : Rat :=
  let signed : Int × List Char :=
    match s.toList with
    | '-' :: rest => (-1, rest)
    | '+' :: rest => (1, rest)
    | rest => (1, rest)
  if infNanOk signed.2 then 0
  else
    let p := splitExp signed.2
    let intPart := p.1.takeWhile (fun c => c ≠ '.')
    let fracPart := (p.1.dropWhile (fun c => c ≠ '.')).drop 1
    let n : Int := signed.1 * (digitsToNat (intPart ++ fracPart) : Int)
    let e : Int := match p.2 with | none => 0 | some cs => expVal cs
    if 0 ≤ e then mkRat (n * (10 : Int) ^ e.toNat) ((10 : Nat) ^ fracPart.length)
    else mkRat n ((10 : Nat) ^ fracPart.length * (10 : Nat) ^ (-e).toNat)

/-- Number of times `p` divides `n` (computed with explicit fuel; called
with fuel `n`, which suffices since a proper divisor chain of `n` has length
below `n`). -/
def powCount (p n fuel : Nat) : Nat :=
  match fuel with
  | 0 => 0
  | fuel + 1 => if 2 ≤ p ∧ 0 < n ∧ n % p = 0 then 1 + powCount p (n / p) fuel else 0

/-- Model of `Value::new` (`value.rs` lines 43–97).  `p` is the external
`dtparse::parse` collaborator: `p s = some dt` models a successful parse of
`s` into the naive datetime `dt`, `none` models `Err`. -/
def Value.new (p : Str → Option DTRec) (s : Str) : Value :=
  if s = "" then Value.Empty
  else
    let afterDt : Option Value :=
      match dtCharCount s with
      | some n =>
        if n > 0 then
          match p s with
          | some dt =>
            if dt.year = 0 then some (Value.Time dt.time)
            else if dt.hour = 0 then some (Value.Date dt.date)
            else some (Value.DateTime dt)
          | none => none
        else none
      | none => none
    match afterDt with
    | some v => v
    | none =>
      let afterFloat : Option Value :=
        match floatCharCount s with
        | some n =>
          if n = 1 ∧ parseF64ok s then some (Value.Float (parseF64val s))
          else none
        | none => none
      match afterFloat with
      | some v => v
      | none =>
        if s.toList.all (fun c => c.isDigit || c = '-') then
          match parseI64 s with
          | some i => Value.Integer i
          | none => Value.String s
        else Value.String s

example : Value.new (fun _ => none) "" = Value.Empty := by decide
example : Value.new (fun _ => none) "123456" = Value.Integer 123456 := by decide
example : Value.new (fun _ => none) "hello world" = Value.String "hello world" := by decide
example : Value.new (fun _ => none) "6.1234" = Value.Float (mkRat 61234 10000) := by decide
example : Value.new (fun _ => some ⟨2020, 1, 2, 17, 34, 45⟩) "1/2/2020 5:34:45 pm"
    = Value.DateTime ⟨2020, 1, 2, 17, 34, 45⟩ := by decide

/-- Model of `Value::with_type` (`value.rs` lines 99–120).  The Rust function
returns `Value` and panics (`unwrap`/`expect`) when the underlying parse
fails; the model returns `none` for a panic.  `p` models `dtparse::parse`;
`pdtf`, `pdf`, `ptf` model `chrono`'s `NaiveDateTime/NaiveDate/NaiveTime::
parse_from_str` applied to a format string and an input. -/
def Value.withType (p : Str → Option DTRec)
    (pdtf : Str → Str → Option DTRec)
    (pdf : Str → Str → Option DateRec)
    (ptf : Str → Str → Option TimeRec)
    (s : Str) : ValueType → Option Value
  | ValueType.String => some (Value.String s)
  | ValueType.DateTime => (p s).map Value.DateTime
  | ValueType.DateTimeFormat fmt => (pdtf s fmt).map Value.DateTime
  | ValueType.DateFormat fmt => (pdf s fmt).map Value.Date
  | ValueType.TimeFormat fmt => (ptf s fmt).map Value.Time
  | ValueType.Number =>
    if parseF64ok s then some (Value.Float (parseF64val s))
    else (parseI64 s).map Value.Integer
  | ValueType.Integer => (parseI64 s).map Value.Integer
  | ValueType.Float =>
    if parseF64ok s then some (Value.Float (parseF64val s)) else none
  | ValueType.Empty => some Value.Empty

/-- Whether a value is of the variant declared by a `ValueType` (used to
state that `with_type` never falls back to a different variant). -/
def declaredVariant : ValueType → Value → Prop
  | ValueType.String, Value.String _ => True
  | ValueType.DateTime, Value.DateTime _ => True
  | ValueType.DateTimeFormat _, Value.DateTime _ => True
  | ValueType.DateFormat _, Value.Date _ => True
  | ValueType.TimeFormat _, Value.Time _ => True
  | ValueType.Number, Value.Float _ => True
  | ValueType.Number, Value.Integer _ => True
  | ValueType.Integer, Value.Integer _ => True
  | ValueType.Float, Value.Float _ => True
  | ValueType.Empty, Value.Empty => True
  | _, _ => False

/-- Decimal digit characters of `n`, least significant first, with explicit
fuel (structural recursion so that proofs and the kernel can evaluate it). -/
def natDigitsRevFuel (n fuel : Nat) : List Char :=
  match fuel with
  | 0 => []
  | fuel + 1 =>
    if n < 10 then [Char.ofNat (48 + n)]
    else Char.ofNat (48 + n % 10) :: natDigitsRevFuel (n / 10) fuel

/-- Decimal digit characters of `n`, least significant first (`n + 1` fuel
steps always suffice: the quotient chain `n, n/10, …` reaches a one-digit
number within `n` steps). -/
def natDigitsRev (n : Nat) : List Char := natDigitsRevFuel n (n + 1)

/-- Decimal representation of a natural number (model of Rust's `Display`
for unsigned integers). -/
def natRepr (n : Nat) : String := String.mk (natDigitsRev n).reverse

/-- Decimal representation of an `i64` (model of Rust's `Display` for `i64`,
used by `impl Display for Value` on the `Integer` variant). -/
def intRepr (i : Int) : String :=
  if i < 0 then "-" ++ natRepr (-i).toNat else natRepr i.toNat

/-- Left-pad a digit list with zeros to width `w`. -/
def padZeros (w : Nat) (cs : List Char) : List Char :=
  List.replicate (w - cs.length) '0' ++ cs

/-- `n` printed with at least two digits (chrono's zero-padded fields). -/
def pad2 (n : Nat) : String := String.mk (padZeros 2 (natDigitsRev n).reverse)

/-- A year printed the way chrono's `Display` prints it inside a
`NaiveDate`: zero-padded to four digits for 0–9999, signed otherwise. -/
def displayYear (y : Int) : String :=
  if 0 ≤ y ∧ y ≤ 9999 then String.mk (padZeros 4 (natDigitsRev y.toNat).reverse)
  else if y < 0 then "-" ++ String.mk (padZeros 4 (natDigitsRev (-y).toNat).reverse)
  else "+" ++ natRepr y.toNat

/-- Model of `chrono::NaiveDate`'s `Display` (ISO 8601 `YYYY-MM-DD`). -/
def displayDate (d : DateRec) : String :=
  displayYear d.year ++ "-" ++ pad2 d.month ++ "-" ++ pad2 d.day

/-- Model of `chrono::NaiveTime`'s `Display` (`HH:MM:SS`; the fractional
part is absent because modelled times carry no nanoseconds). -/
def displayTime (t : TimeRec) : String :=
  pad2 t.hour ++ ":" ++ pad2 t.minute ++ ":" ++ pad2 t.second

/-- Model of `chrono::NaiveDateTime`'s `Display`: date, space, time. -/
def displayDT (dt : DTRec) : String :=
  displayDate dt.date ++ " " ++ displayTime dt.time

/-- Model of Rust's `Display` for `f64` (via `OrderedFloat`'s forwarding
`Display`) under the exact-decimal abstraction: the shortest decimal string
denoting the value — no trailing fractional zeros, and no decimal point at
all for integral values (Rust prints `1.0f64` as `"1"`). -/
def displayFloat (q : Rat) : String :=
  let a := powCount 2 q.den q.den
  let b := powCount 5 q.den q.den
  let k := max a b
  let n : Int := q.num * (10 : Int) ^ k / (q.den : Int)
  let m := n.natAbs
  let sign := if q.num < 0 then "-" else ""
  if k = 0 then sign ++ natRepr m
  else
    sign ++ natRepr (m / 10 ^ k) ++ "." ++
      String.mk (padZeros k (natDigitsRev (m % 10 ^ k)).reverse)

/-- Model of `impl Display for Value` (`value.rs` lines 220–232). -/
def Value.display : Value → Str
  | Value.String s => s
  | Value.DateTime dt => displayDT dt
  | Value.Date d => displayDate d
  | Value.Time t => displayTime t
  | Value.Integer i => intRepr i
  | Value.Float q => displayFloat q
  | Value.Empty => ""

example : Value.display (Value.Float (mkRat 1 1)) = "1" := by decide
example : Value.display (Value.Float (mkRat 61234 10000)) = "6.1234" := by decide
example : Value.display (Value.Integer (-35)) = "-35" := by decide
example : Value.display (Value.Date ⟨2020, 1, 2⟩) = "2020-01-02" := by decide
example : Value.display (Value.DateTime ⟨2020, 1, 2, 17, 34, 45⟩) = "2020-01-02 17:34:45" := by decide
example : Value.display (Value.Float (mkRat 21 20)) = "1.05" := by decide

/-- Model of `row_table.rs` `RowTableInner`: column names plus owned rows. -/
structure RowTableInner where
  columns : List String
  rows : List (List Value)
deriving DecidableEq, Repr

/-- Model of `row_table.rs` `RowTableSlice`.  The `Arc<Mutex<RowTableInner>>`
parent reference is modelled by embedding the parent table's state. -/
structure RowTableSlice where
  columnMap : List (String × Nat)
  rows : List Nat
  table : RowTableInner
deriving DecidableEq, Repr

/-- The `column_map` built throughout `row_table.rs`:
`columns.iter().enumerate().map(|(i, s)| (s.clone(), i))`. -/
def columnMapOf (cols : List String) : List (String × Nat) :=
  cols.enum.map (fun p => (p.2, p.1))

/-- Model of `RowTable::split_rows_at` (`row_table.rs` lines 236–255): error
when `mid >= rows.len()`, otherwise the index ranges `0..mid` and
`mid..len` over the parent table. -/
def RowTable.splitRowsAt (t : RowTableInner) (mid : Nat) :
    Except TableError (RowTableSlice × RowTableSlice) :=
  if mid ≥ t.rows.length then
    Except.error ⟨"Midpoint too large: " ++ natRepr mid ++ " >= " ++ natRepr t.rows.length⟩
  else
    Except.ok
      (⟨columnMapOf t.columns, List.range mid, t⟩,
       ⟨columnMapOf t.columns, List.range' mid (t.rows.length - mid), t⟩)

/-- Model of `RowTableSlice::split_rows_at` (`row_table.rs` lines 399–410):
error when `mid >= self.rows.len()`, otherwise slices whose index lists are
the freshly built ranges `(0..mid)` and `(mid..self.rows.len())` — not
sub-lists of `self.rows`. -/
def RowTableSlice.splitRowsAt (s : RowTableSlice) (mid : Nat) :
    Except TableError (RowTableSlice × RowTableSlice) :=
  if mid ≥ s.rows.length then
    Except.error ⟨"Midpoint too large: " ++ natRepr mid ++ " >= " ++ natRepr s.rows.length⟩
  else
    Except.ok
      (⟨s.columnMap, List.range mid, s.table⟩,
       ⟨s.columnMap, List.range' mid (s.rows.length - mid), s.table⟩)

/-- Model of `RowTable::find_by` (`row_table.rs` lines 196–210): scan the
rows in index order and collect the indices where the predicate holds.  The
Rust predicate receives a `RowSlice` handle whose observable content is the
row's cells, so the model predicate takes the cell list. -/
def RowTable.findBy (t : RowTableInner) (pred : List Value → Bool) :
    Except TableError RowTableSlice :=
  Except.ok
    { columnMap := columnMapOf t.columns
      rows := (t.rows.enum.filter (fun pr => pred pr.2)).map Prod.fst
      table := t }

/-- A row value passed to `append_row`: the `Row` trait of `row.rs` exposes
`columns()` and `at(pos)`, backed by a column list and a cell list
(`OwnedRow` / `RefRow`). -/
structure InputRow where
  columns : List String
  cells : List Value
deriving DecidableEq, Repr

/-- Model of `Row::at` (`row.rs`): index error beyond the cell list. -/
def InputRow.at (r : InputRow) (pos : Nat) : Except TableError Value :=
  if h : pos ≥ r.cells.length then
    Except.error ⟨"Index " ++ natRepr pos ++ " is greater than row width " ++ natRepr r.cells.length⟩
  else Except.ok (r.cells.get ⟨pos, by omega⟩)

/-- Model of the `Row::get` default method (`row.rs` lines 36–46): find the
column's position in the row's own column list, then `at` it. -/
def InputRow.get (r : InputRow) (column : String) : Except TableError Value :=
  match r.columns.findIdx? (fun c => c = column) with
  | some p => r.at p
  | none => Except.error ⟨"Could not find column " ++ column ++ " in row"⟩

/-- The `for column in columns` loop of `RowTable::append_row`: fetch each
column's value from the row, returning the first error, else the collected
vector in column order. -/
def InputRow.collect (r : InputRow) : List String → Except TableError (List Value)
  | [] => Except.ok []
  | c :: cs =>
    match r.get c with
    | Except.error e => Except.error e
    | Except.ok v =>
      match InputRow.collect r cs with
      | Except.error e => Except.error e
      | Except.ok vs => Except.ok (v :: vs)

/-- Model of `RowTable::append_row` (`row_table.rs` lines 107–122): for each
of the table's columns get the corresponding value from the given row,
returning the first error; on success push the collected vector. -/
def RowTable.appendRow (t : RowTableInner) (r : InputRow) :
    Except TableError RowTableInner :=
  match r.collect t.columns with
  | Except.error e => Except.error e
  | Except.ok vals => Except.ok { t with rows := t.rows ++ [vals] }

/-- Model of `RowTable::from_csv` (`row_table.rs` lines 40–67) downstream of
the external CSV tokenizer: `records` is the tokenizer's output (header
record first), `p` the datetime parser of `Value::new`.  The Rust duplicate
check compares the size of a `HashSet` of the headers with the header count;
`dedup.length` is that distinct count.  The `IOError` with
`InvalidData` kind is modelled by its reason string. -/
def RowTable.fromCsv (p : Str → Option DTRec) (records : List (List String)) :
    Except TableError RowTableInner :=
  let columns := records.headD []
  if columns.dedup.length ≠ columns.length then
    Except.error ⟨"Duplicate columns detected in the file"⟩
  else
    Except.ok
      { columns := columns
        rows := (records.drop 1).map (fun r => r.map (Value.new p)) }

/-- Model of `RowTable::from_csv_with_schema` (`row_table.rs` lines 69–97):
duplicate-header check, then schema-length check, then per-cell
`Value::with_type` — whose panic (and the panic of the `schema[i]` index
when a record is wider than the schema) surfaces as the outer `none`. -/
def RowTable.fromCsvWithSchema (p : Str → Option DTRec)
    (pdtf : Str → Str → Option DTRec) (pdf : Str → Str → Option DateRec)
    (ptf : Str → Str → Option TimeRec)
    (records : List (List String)) (schema : List ValueType) :
    Option (Except TableError RowTableInner) :=
  let columns := records.headD []
  if columns.dedup.length ≠ columns.length then
    some (Except.error ⟨"Duplicate columns detected in the file"⟩)
  else if columns.length ≠ schema.length then
    some (Except.error ⟨"Column count and schema length do not match: " ++
      natRepr columns.length ++ " != " ++ natRepr schema.length⟩)
  else
    (List.mapM
        (fun (r : List String) =>
          List.mapM
            (fun (pr : Nat × String) =>
              match schema.get? pr.1 with
              | some ty => Value.withType p pdtf pdf ptf pr.2 ty
              | none => none)
            r.enum)
        (records.drop 1)).map
      (fun rows => Except.ok { columns := columns, rows := rows })

/-- Model of `mmap_table.rs` `MMapTableInner`. -/
structure MMapTableInner where
  columns : List String
  mmap : List Char
  rows : List Nat
  schema : Option (List ValueType)
deriving DecidableEq, Repr

/-- Model of `MMapTable::map_file` (`mmap_table.rs` lines 41–96) downstream
of the external tokenizer: `recordEnds` is the byte offset at which each
record ends (the `pos` values pushed per `Record` result), and `tok` is the
header `csv::Reader` extracting the header record's field strings from the
leading bytes.  `rows` becomes `[0] ++ recordEnds` minus its last element;
the header slice `mmap[0..rows[1]]` panics (`none`) when fewer than two
records exist.  Duplicate headers fail exactly as in `RowTable::from_csv`. -/
def MMapTable.mapFile (tok : List Char → List String)
    (mmap : List Char) (recordEnds : List Nat) :
    Option (Except TableError MMapTableInner) :=
  let rows := (0 :: recordEnds).dropLast
  match rows.get? 1 with
  | none => none
  | some hdrEnd =>
    let columns := tok (mmap.take hdrEnd)
    if columns.dedup.length ≠ columns.length then
      some (Except.error ⟨"Duplicate columns detected in the file"⟩)
    else some (Except.ok { columns := columns, mmap := mmap, rows := rows, schema := none })

/-- Model of `lib.rs` `LargeTableInner`: columns, the mapped byte buffer
(as characters) and the optional schema. -/
structure LargeTableInner where
  columns : List String
  mmap : List Char
  schema : Option (List ValueType)
deriving DecidableEq, Repr

/-- Model of `lib.rs` `LargeTable`: shared immutable part plus the per-row
field byte-offset tables. -/
structure LargeTable where
  inner : LargeTableInner
  rows : List (List (Nat × Nat))
deriving DecidableEq, Repr

/-- The byte range `mmap[s..e]` decoded as a string
(`str::from_utf8_unchecked` on the mapped bytes). -/
def extractStr (mmap : List Char) (s e : Nat) : String :=
  String.mk ((mmap.drop s).take (e - s))

/-- Model of `LargeTable::load` (`lib.rs` lines 155–239) downstream of the
external `csv_core` tokenizer: `records` is the per-record list of field
byte-offset pairs located by the tokenizer loop.  The first record's fields
are decoded into the column list — with no duplicate check — and the
remaining records become the row-offset table. -/
def LargeTable.load (mmap : List Char) (records : List (List (Nat × Nat)))
    (schema : Option (List ValueType)) : LargeTable :=
  { inner :=
      { columns := (records.headD []).map (fun se => extractStr mmap se.1 se.2)
        mmap := mmap
        schema := schema }
    rows := records.drop 1 }

/-- Model of `Row::try_at` (`lib.rs` lines 65–103, live path): decode the
cell's bytes and apply `Value::with_type` under a schema or `Value::new`
without one.  `none` models a panic: the `col_offsets[index]` or
`value_types[index]` index panic, or a `with_type` parse panic.  (In the
live code path the `Result` is always `Ok`, so the error channel is not
modelled.) -/
def LargeTable.rowTryAt (p : Str → Option DTRec)
    (pdtf : Str → Str → Option DTRec) (pdf : Str → Str → Option DateRec)
    (ptf : Str → Str → Option TimeRec)
    (inner : LargeTableInner) (colOffsets : List (Nat × Nat)) (index : Nat) :
    Option Value :=
  match colOffsets.get? index with
  | none => none
  | some se =>
    let val := extractStr inner.mmap se.1 se.2
    match inner.schema with
    | some tys =>
      match tys.get? index with
      | some ty => Value.withType p pdtf pdf ptf val ty
      | none => none
    | none => some (Value.new p val)

/-- Model of `LargeTable::column_position` (`lib.rs` lines 273–279). -/
def LargeTable.columnPosition (t : LargeTable) (column : String) :
    Except TableError Nat :=
  match t.inner.columns.findIdx? (fun c => c = column) with
  | some pos => Except.ok pos
  | none => Except.error ⟨"Column not found: " ++ column⟩

/-- Model of `LargeTable::filter_by` (`lib.rs` lines 355–368).  The Rust
implementation pushes `iter().enumerate()` through rayon's `par_bridge()`
and collects whatever order the worker threads deliver; `par_bridge` makes
no ordering promise.  `sched` models that delivery order as a reordering of
the sequentially matched rows (the identity under a single-worker
schedule).  The predicate receives a `Row` handle whose observable content
is the row's offset table, so the model predicate takes the offset list. -/
def LargeTable.filterBy
    (sched : List (List (Nat × Nat)) → List (List (Nat × Nat)))
    (t : LargeTable) (pred : List (Nat × Nat) → Bool) :
    Except TableError LargeTable :=
  Except.ok { inner := t.inner, rows := sched (t.rows.filter pred) }

/-- Comparison on rationals (model of `OrderedFloat<f64>`'s total order on
the finite floats the claims involve). -/
def cmpRat (a b : Rat) : Ordering :=
  if a < b then Ordering.lt else if b < a then Ordering.gt else Ordering.eq

/-- Comparison on integers (`i64`'s `Ord`). -/
def cmpInt (a b : Int) : Ordering :=
  if a < b then Ordering.lt else if b < a then Ordering.gt else Ordering.eq

/-- Comparison on naturals. -/
def cmpNat (a b : Nat) : Ordering :=
  if a < b then Ordering.lt else if b < a then Ordering.gt else Ordering.eq

/-- Lexicographic comparison of character lists by character code. -/
def cmpChars : List Char → List Char → Ordering
  | [], [] => Ordering.eq
  | [], _ :: _ => Ordering.lt
  | _ :: _, [] => Ordering.gt
  | a :: as_, b :: bs =>
    (cmpNat a.toNat b.toNat).then (cmpChars as_ bs)

/-- Lexicographic comparison of strings by character code (`String`'s
`Ord` in Rust, byte-lexicographic). -/
def cmpStr (a b : Str) : Ordering :=
  cmpChars a.toList b.toList

/-- Chronological comparison of datetimes (chrono's `Ord`, lexicographic in
the fields). -/
def cmpDT (a b : DTRec) : Ordering :=
  (cmpInt a.year b.year).then ((cmpNat a.month b.month).then
    ((cmpNat a.day b.day).then ((cmpNat a.hour b.hour).then
      ((cmpNat a.minute b.minute).then (cmpNat a.second b.second)))))

/-- Chronological comparison of dates (chrono's `Ord`). -/
def cmpDate (a b : DateRec) : Ordering :=
  (cmpInt a.year b.year).then ((cmpNat a.month b.month).then (cmpNat a.day b.day))

/-- Chronological comparison of times (chrono's `Ord`). -/
def cmpTime (a b : TimeRec) : Ordering :=
  (cmpNat a.hour b.hour).then ((cmpNat a.minute b.minute).then (cmpNat a.second b.second))

/-- `Value`'s variant rank in declaration order (`value.rs` derives `Ord`,
which orders variants by declaration: String < DateTime < Date < Time <
Integer < Float < Empty). -/
def valueRank : Value → Nat
  | Value.String _ => 0
  | Value.DateTime _ => 1
  | Value.Date _ => 2
  | Value.Time _ => 3
  | Value.Integer _ => 4
  | Value.Float _ => 5
  | Value.Empty => 6

/-- Model of the derived `Ord` on `Value`: variant declaration order first,
then the payload's order. -/
def valueCmp : Value → Value → Ordering
  | Value.String a, Value.String b => cmpStr a b
  | Value.DateTime a, Value.DateTime b => cmpDT a b
  | Value.Date a, Value.Date b => cmpDate a b
  | Value.Time a, Value.Time b => cmpTime a b
  | Value.Integer a, Value.Integer b => cmpInt a b
  | Value.Float a, Value.Float b => cmpRat a b
  | Value.Empty, Value.Empty => Ordering.eq
  | a, b => cmpNat (valueRank a) (valueRank b)

/-- Comparison lifted to the panic-tracking `Option Value` of `rowTryAt`.
A `none` models a panic, which aborts the Rust process, so the `none`
branches are never observed; they are ordered arbitrarily for totality. -/
def optValueCmp (a b : Option Value) : Ordering :=
  match a, b with
  | some x, some y => valueCmp x y
  | none, some _ => Ordering.lt
  | some _, none => Ordering.gt
  | none, none => Ordering.eq

/-- Model of `LargeTable::sort_by` (`lib.rs` lines 402–417): a new table
whose rows are sorted by the comparator.  `sort_unstable_by` promises
nothing about ties; the model fixes one comparator-consistent outcome
(merge sort). -/
def LargeTable.sortBy (t : LargeTable)
    (cmp : List (Nat × Nat) → List (Nat × Nat) → Ordering) : LargeTable :=
  { inner := t.inner
    rows := t.rows.mergeSort (fun a b => cmp a b ≠ Ordering.gt) }

/-- The comparator `LargeTable::sort` builds: first non-`Equal` comparison
of the decoded cells at the given column indices. -/
def lexCmpAt (p : Str → Option DTRec)
    (pdtf : Str → Str → Option DTRec) (pdf : Str → Str → Option DateRec)
    (ptf : Str → Str → Option TimeRec) (inner : LargeTableInner) :
    List Nat → List (Nat × Nat) → List (Nat × Nat) → Ordering
  | [], _, _ => Ordering.eq
  | i :: rest, r1, r2 =>
    let c := optValueCmp (LargeTable.rowTryAt p pdtf pdf ptf inner r1 i)
      (LargeTable.rowTryAt p pdtf pdf ptf inner r2 i)
    if c ≠ Ordering.eq then c else lexCmpAt p pdtf pdf ptf inner rest r1 r2

/-- Model of `LargeTable::sort` (`lib.rs` lines 373–399): an error when no
columns are passed, otherwise resolve every column to its position (first
missing column errors) and sort by the lexicographic cell comparator. -/
def LargeTable.sort (p : Str → Option DTRec)
    (pdtf : Str → Str → Option DTRec) (pdf : Str → Str → Option DateRec)
    (ptf : Str → Str → Option TimeRec)
    (t : LargeTable) (columns : List String) : Except TableError LargeTable :=
  if columns.isEmpty then Except.error ⟨"No columns passed to sort"⟩
  else
    match columns.mapM (fun c => t.columnPosition c) with
    | Except.error e => Except.error e
    | Except.ok indices =>
      Except.ok (t.sortBy (lexCmpAt p pdtf pdf ptf t.inner indices))

/-! ## Shared helper lemmas -/

/-- When the datetime character scan accepts `s` with a positive separator
count and the external parser succeeds, `Value::new` returns the
classification of the parsed datetime. -/
theorem valueNew_dt_branch (p : Str → Option DTRec) (s : Str) (n : Int) (dt : DTRec)
    (h1 : ¬ s = "") (h2 : dtCharCount s = some n) (h3 : 0 < n) (hp : p s = some dt) :
    Value.new p s =
      (if dt.year = 0 then Value.Time dt.time
       else if dt.hour = 0 then Value.Date dt.date
       else Value.DateTime dt) := by
  by_cases hy : dt.year = 0
  · simp [Value.new, h1, h2, h3, hp, hy]
  · by_cases hh : dt.hour = 0
    · simp [Value.new, h1, h2, h3, hp, hy, hh]
    · simp [Value.new, h1, h2, h3, hp, hy, hh]

/-! ## Claim C1 -/

/-- C1: `RowTableSlice::split_rows_at` does not partition the slice's own
index list.  Evaluated at the failing input — a slice over parent rows
`[2, 3]` of a four-row table, split at `mid = 1` — the code returns slices
with the freshly built index lists `[0]` and `[1]`, which are not even a
permutation of the slice's own indices `[2, 3]` (the claim requires
`s.rows[0..mid] = [2]` and `s.rows[mid..] = [3]`). -/
theorem c1_slice_split_fresh_indices :
    RowTableSlice.splitRowsAt
        ⟨columnMapOf ["A"], [2, 3],
         ⟨["A"], [[Value.Integer 0], [Value.Integer 1], [Value.Integer 2], [Value.Integer 3]]⟩⟩ 1
      = Except.ok
          (⟨columnMapOf ["A"], [0],
            ⟨["A"], [[Value.Integer 0], [Value.Integer 1], [Value.Integer 2], [Value.Integer 3]]⟩⟩,
           ⟨columnMapOf ["A"], [1],
            ⟨["A"], [[Value.Integer 0], [Value.Integer 1], [Value.Integer 2], [Value.Integer 3]]⟩⟩) ∧
    ¬ (([0] ++ [1] : List Nat).Perm [2, 3]) := by
  constructor
  · rfl
  · decide

/-! ## Claim C4 -/

/-- C4 counterexample: on a two-row table the claim demands that
`split_rows_at(2)` (with `mid = n = 2`) succeed, but the code's bounds
check is `mid >= len`, so it fails. -/
theorem c4_counterexample :
    (RowTable.splitRowsAt ⟨["A"], [[Value.Integer 1], [Value.Integer 2]]⟩ 2).isOk = false := by
  decide

/-- C4 amended: `split_rows_at(mid)` on a table or slice succeeds exactly
when `mid < n` and fails (with the "Midpoint too large" error) exactly when
`mid ≥ n`; on success the table version's two index lists concatenate to
`0..n` in order. -/
theorem c4_split_bounds (t : RowTableInner) (s : RowTableSlice) (mid : Nat) :
    ((RowTable.splitRowsAt t mid).isOk = true ↔ mid < t.rows.length) ∧
    ((RowTableSlice.splitRowsAt s mid).isOk = true ↔ mid < s.rows.length) ∧
    (∀ s1 s2, RowTable.splitRowsAt t mid = Except.ok (s1, s2) →
      s1.rows ++ s2.rows = List.range t.rows.length) := by
  refine ⟨?_, ?_, ?_⟩
  · unfold RowTable.splitRowsAt
    by_cases h : mid ≥ t.rows.length
    · simp [h, Except.isOk, Except.toBool]
      try omega
    · simp [h, Except.isOk, Except.toBool]
      try omega
  · unfold RowTableSlice.splitRowsAt
    by_cases h : mid ≥ s.rows.length
    · simp [h, Except.isOk, Except.toBool]
      try omega
    · simp [h, Except.isOk, Except.toBool]
      try omega
  · intro s1 s2 hok
    unfold RowTable.splitRowsAt at hok
    by_cases h : mid ≥ t.rows.length
    · simp [h] at hok
    · simp [h] at hok
      have h1 : s1.rows = List.range mid := by
        rw [← hok.1]
      have h2 : s2.rows = List.range' mid (t.rows.length - mid) := by
        rw [← hok.2]
      rw [h1, h2, List.range_eq_range', List.range_eq_range']
      have := List.range'_append 0 mid (t.rows.length - mid) 1
      simp only [Nat.zero_add, Nat.mul_one, Nat.one_mul] at this
      rw [this]
      congr 1
      omega

/-- C4 witness: at `mid = 1` on a concrete two-row table the split succeeds
and the two halves concatenate to `0..2`. -/
theorem c4_split_bounds_witness :
    (RowTable.splitRowsAt ⟨["A"], [[Value.Integer 1], [Value.Integer 2]]⟩ 1).isOk = true ∧
    ((⟨columnMapOf ["A"], List.range 1, ⟨["A"], [[Value.Integer 1], [Value.Integer 2]]⟩⟩ : RowTableSlice).rows ++
     (⟨columnMapOf ["A"], List.range' 1 1, ⟨["A"], [[Value.Integer 1], [Value.Integer 2]]⟩⟩ : RowTableSlice).rows
       = List.range 2) :=
  ⟨(c4_split_bounds ⟨["A"], [[Value.Integer 1], [Value.Integer 2]]⟩
      ⟨columnMapOf ["A"], [0, 1], ⟨["A"], [[Value.Integer 1], [Value.Integer 2]]⟩⟩ 1).1.mpr (by decide),
   (c4_split_bounds ⟨["A"], [[Value.Integer 1], [Value.Integer 2]]⟩
      ⟨columnMapOf ["A"], [0, 1], ⟨["A"], [[Value.Integer 1], [Value.Integer 2]]⟩⟩ 1).2.2 _ _ rfl⟩

/-! ## Claim C10 -/

/-- C10: `LargeTable::sort` with an empty column list returns the
"No columns passed to sort" error rather than succeeding as a no-op (the
receiver is taken by shared reference and never mutated: in the model,
`sort` is a pure function of `t`, so the table is unchanged on the error
path). -/
theorem c10_sort_empty_columns (p : Str → Option DTRec)
    (pdtf : Str → Str → Option DTRec) (pdf : Str → Str → Option DateRec)
    (ptf : Str → Str → Option TimeRec) (t : LargeTable) :
    LargeTable.sort p pdtf pdf ptf t [] = Except.error ⟨"No columns passed to sort"⟩ := rfl

/-! ## Claim C8 -/

/-- C8: the concrete `Value::parse` scenarios.  `"6.1234"`, `"123456"`,
`"hello world"` and `""` never reach the external datetime parser, so their
results hold for every parser `p`; `"1/2/2020 5:34:45 pm"` passes the
character scan, and under `dtparse`'s output 2020-01-02T17:34:45 on that
string the result is the `DateTime` variant.  `mkRat 61234 10000` is the
exact decimal 6.1234 (the model of the float `6.1234`). -/
theorem c8_value_parse_concrete (p : Str → Option DTRec)
    (h : p "1/2/2020 5:34:45 pm" = some ⟨2020, 1, 2, 17, 34, 45⟩) :
    Value.new p "1/2/2020 5:34:45 pm" = Value.DateTime ⟨2020, 1, 2, 17, 34, 45⟩ ∧
    Value.new p "6.1234" = Value.Float (mkRat 61234 10000) ∧
    Value.new p "123456" = Value.Integer 123456 ∧
    Value.new p "hello world" = Value.String "hello world" ∧
    Value.new p "" = Value.Empty := by
  refine ⟨?_, rfl, rfl, rfl, rfl⟩
  rw [valueNew_dt_branch p _ 4 ⟨2020, 1, 2, 17, 34, 45⟩ (by decide) (by decide) (by decide) h]
  decide

/-- C8 witness: the theorem applied to a parser returning exactly
`dtparse`'s output on the datetime string. -/
theorem c8_value_parse_concrete_witness :
    Value.new (fun _ => some ⟨2020, 1, 2, 17, 34, 45⟩) "1/2/2020 5:34:45 pm"
      = Value.DateTime ⟨2020, 1, 2, 17, 34, 45⟩ ∧
    Value.new (fun _ => some ⟨2020, 1, 2, 17, 34, 45⟩) "6.1234" = Value.Float (mkRat 61234 10000) ∧
    Value.new (fun _ => some ⟨2020, 1, 2, 17, 34, 45⟩) "123456" = Value.Integer 123456 ∧
    Value.new (fun _ => some ⟨2020, 1, 2, 17, 34, 45⟩) "hello world" = Value.String "hello world" ∧
    Value.new (fun _ => some ⟨2020, 1, 2, 17, 34, 45⟩) "" = Value.Empty :=
  c8_value_parse_concrete (fun _ => some ⟨2020, 1, 2, 17, 34, 45⟩) rfl

/-! ## Claim C6 -/

/-- C6 counterexample: a string whose parsed datetime has hour 0 but
minute 30.  The claim requires a full `DateTime` (hour, minute, second not
all zero), but the code tests only `dt.hour() == 0` and returns a pure
`Date`, discarding the parsed 00:30:00 time. -/
theorem c6_counterexample :
    Value.new (fun _ => some ⟨2020, 1, 2, 0, 30, 0⟩) "1/2/2020 0:30:00"
      = Value.Date ⟨2020, 1, 2⟩ ∧
    (30 : Nat) ≠ 0 ∧
    Value.new (fun _ => some ⟨2020, 1, 2, 0, 30, 0⟩) "1/2/2020 0:30:00"
      ≠ Value.DateTime ⟨2020, 1, 2, 0, 30, 0⟩ := by
  refine ⟨by decide, by decide, by decide⟩

/-- C6 amended: for a string classified as a date/time and successfully
parsed, the result is a pure `Time` when the parsed year is the epoch-zero
sentinel, a pure `Date` when the parsed HOUR is zero (minute and second are
not examined), and a full `DateTime` otherwise. -/
theorem c6_datetime_classification (p : Str → Option DTRec) (s : Str) (n : Int) (dt : DTRec)
    (h1 : ¬ s = "") (h2 : dtCharCount s = some n) (h3 : 0 < n) (hp : p s = some dt) :
    (dt.year = 0 → Value.new p s = Value.Time dt.time) ∧
    (dt.year ≠ 0 → dt.hour = 0 → Value.new p s = Value.Date dt.date) ∧
    (dt.year ≠ 0 → dt.hour ≠ 0 → Value.new p s = Value.DateTime dt) := by
  rw [valueNew_dt_branch p s n dt h1 h2 h3 hp]
  refine ⟨fun hy => by simp [hy], fun hy hh => by simp [hy, hh], fun hy hh => by simp [hy, hh]⟩

/-- C6 witness: the classification applied at three concrete parses — a
time-only string (sentinel year 0), an hour-zero datetime, and an ordinary
afternoon datetime. -/
theorem c6_datetime_classification_witness :
    Value.new (fun _ => some ⟨0, 1, 1, 17, 34, 45⟩) "17:34:45" = Value.Time ⟨17, 34, 45⟩ ∧
    Value.new (fun _ => some ⟨2020, 1, 2, 0, 30, 0⟩) "1/2/2020 0:30:00" = Value.Date ⟨2020, 1, 2⟩ ∧
    Value.new (fun _ => some ⟨2020, 1, 2, 17, 34, 45⟩) "1/2/2020 5:34:45 pm"
      = Value.DateTime ⟨2020, 1, 2, 17, 34, 45⟩ :=
  ⟨(c6_datetime_classification (fun _ => some ⟨0, 1, 1, 17, 34, 45⟩) "17:34:45" 2
      ⟨0, 1, 1, 17, 34, 45⟩ (by decide) (by decide) (by decide) rfl).1 rfl,
   (c6_datetime_classification (fun _ => some ⟨2020, 1, 2, 0, 30, 0⟩) "1/2/2020 0:30:00" 4
      ⟨2020, 1, 2, 0, 30, 0⟩ (by decide) (by decide) (by decide) rfl).2.1 (by decide) rfl,
   (c6_datetime_classification (fun _ => some ⟨2020, 1, 2, 17, 34, 45⟩) "1/2/2020 5:34:45 pm" 4
      ⟨2020, 1, 2, 17, 34, 45⟩ (by decide) (by decide) (by decide) rfl).2.2 (by decide) (by decide)⟩

/-! ## Claim C5 -/

/-- C5 counterexample: `with_type("hello", Integer)` — the string cannot be
parsed as the declared type, and the code panics on the failed `unwrap`
(modelled `none`: the function's return type `Value` has no error channel,
so no recoverable `ParseError` is ever produced). -/
theorem c5_counterexample :
    Value.withType (fun _ => none) (fun _ _ => none) (fun _ _ => none) (fun _ _ => none)
      "hello" ValueType.Integer = none := by decide

/-- C5 amended: `with_type` panics (rather than returning a recoverable
error) exactly when the underlying parse of the declared type fails, and it
never silently falls back: every successful result is of the declared
variant (`Number` tries float first, then integer, both within the declared
`Number` type). -/
theorem c5_with_type_no_fallback (p : Str → Option DTRec)
    (pdtf : Str → Str → Option DTRec) (pdf : Str → Str → Option DateRec)
    (ptf : Str → Str → Option TimeRec) (s : Str) :
    (Value.withType p pdtf pdf ptf s ValueType.Integer = none ↔ parseI64 s = none) ∧
    (Value.withType p pdtf pdf ptf s ValueType.Float = none ↔ parseF64ok s = false) ∧
    (Value.withType p pdtf pdf ptf s ValueType.DateTime = none ↔ p s = none) ∧
    (Value.withType p pdtf pdf ptf s ValueType.Number = none ↔
      (parseF64ok s = false ∧ parseI64 s = none)) ∧
    (∀ t v, Value.withType p pdtf pdf ptf s t = some v → declaredVariant t v) := by
  refine ⟨?_, ?_, ?_, ?_, ?_⟩
  · cases h : parseI64 s <;> simp [Value.withType, h]
  · by_cases h : parseF64ok s <;> simp [Value.withType, h]
  · cases h : p s <;> simp [Value.withType, h]
  · by_cases h : parseF64ok s
    · simp [Value.withType, h]
    · cases h2 : parseI64 s <;> simp [Value.withType, h, h2]
  · intro t v hv
    cases t with
    | String => simp only [Value.withType] at hv; cases hv; simp [declaredVariant]
    | DateTime =>
      simp only [Value.withType] at hv
      obtain ⟨dt, hdt, rfl⟩ := Option.map_eq_some'.mp hv
      simp [declaredVariant]
    | DateTimeFormat fmt =>
      simp only [Value.withType] at hv
      obtain ⟨dt, hdt, rfl⟩ := Option.map_eq_some'.mp hv
      simp [declaredVariant]
    | DateFormat fmt =>
      simp only [Value.withType] at hv
      obtain ⟨d, hd, rfl⟩ := Option.map_eq_some'.mp hv
      simp [declaredVariant]
    | TimeFormat fmt =>
      simp only [Value.withType] at hv
      obtain ⟨tm, ht, rfl⟩ := Option.map_eq_some'.mp hv
      simp [declaredVariant]
    | Number =>
      simp only [Value.withType] at hv
      split at hv
      · cases hv; simp [declaredVariant]
      · obtain ⟨i, hi, rfl⟩ := Option.map_eq_some'.mp hv
        simp [declaredVariant]
    | Integer =>
      simp only [Value.withType] at hv
      obtain ⟨i, hi, rfl⟩ := Option.map_eq_some'.mp hv
      simp [declaredVariant]
    | Float =>
      simp only [Value.withType] at hv
      split at hv
      · cases hv; simp [declaredVariant]
      · cases hv
    | Empty => simp only [Value.withType] at hv; cases hv; simp [declaredVariant]

/-- C5 witness: at `"7"` with declared type `Integer` the parse succeeds,
the result is `Integer(7)`, and it is of the declared variant. -/
theorem c5_with_type_no_fallback_witness :
    Value.withType (fun _ => none) (fun _ _ => none) (fun _ _ => none) (fun _ _ => none)
      "7" ValueType.Integer = some (Value.Integer 7) ∧
    declaredVariant ValueType.Integer (Value.Integer 7) :=
  ⟨by decide,
   (c5_with_type_no_fallback (fun _ => none) (fun _ _ => none) (fun _ _ => none)
      (fun _ _ => none) "7").2.2.2.2 ValueType.Integer (Value.Integer 7) (by decide)⟩

/-! ## Claim C7 -/

/-- The column-collection loop succeeds exactly when every table column can
be fetched from the row. -/
theorem collect_isOk (r : InputRow) (cols : List String) :
    (r.collect cols).isOk = true ↔ ∀ c ∈ cols, (r.get c).isOk = true := by
  induction cols with
  | nil => simp [InputRow.collect, Except.isOk, Except.toBool]
  | cons c cs ih =>
    cases hg : r.get c with
    | error e => simp [InputRow.collect, hg, Except.isOk, Except.toBool]
    | ok v =>
      cases hc : r.collect cs with
      | error e =>
        rw [hc] at ih
        simp [InputRow.collect, hg, hc, Except.isOk, Except.toBool] at ih ⊢
        exact ih
      | ok vs =>
        rw [hc] at ih
        simp [InputRow.collect, hg, hc, Except.isOk, Except.toBool] at ih ⊢
        exact ih

/-- A successful column collection yields one value per column. -/
theorem collect_ok_length (r : InputRow) (cols : List String) (vals : List Value)
    (h : r.collect cols = Except.ok vals) : vals.length = cols.length := by
  induction cols generalizing vals with
  | nil =>
    simp [InputRow.collect] at h
    simp [← h]
  | cons c cs ih =>
    unfold InputRow.collect at h
    cases hg : r.get c with
    | error e => rw [hg] at h; cases h
    | ok v =>
      rw [hg] at h
      cases hc : r.collect cs with
      | error e => rw [hc] at h; cases h
      | ok vs =>
        rw [hc] at h
        cases h
        simp [ih vs hc]

/-- C7 counterexample: a row over columns `["A", "B"]` (width 2) appended to
a table of width 1 — the claim demands failure on the width mismatch, but
the code only looks up each table column in the row, so the append succeeds
and silently drops the extra cell. -/
theorem c7_counterexample :
    ((⟨["A", "B"], [Value.Integer 1, Value.Integer 2]⟩ : InputRow).columns.length ≠
      (⟨["A"], []⟩ : RowTableInner).columns.length) ∧
    RowTable.appendRow ⟨["A"], []⟩ ⟨["A", "B"], [Value.Integer 1, Value.Integer 2]⟩
      = Except.ok ⟨["A"], [[Value.Integer 1]]⟩ :=
  ⟨by decide, rfl⟩

/-- C7 amended: `append_row` fails exactly when some table column cannot be
fetched from the given row (missing name, or the row's cell list is shorter
than the position found); on success the appended row has exactly `width`
cells — one value per table column — regardless of the argument row's own
width. -/
theorem c7_append_row (t : RowTableInner) (r : InputRow) :
    ((RowTable.appendRow t r).isOk = true ↔ ∀ c ∈ t.columns, (r.get c).isOk = true) ∧
    (∀ t2, RowTable.appendRow t r = Except.ok t2 →
      ∃ vals, t2.rows = t.rows ++ [vals] ∧ vals.length = t.columns.length) := by
  constructor
  · have hiff := collect_isOk r t.columns
    unfold RowTable.appendRow
    cases hm : r.collect t.columns with
    | error e =>
      rw [hm] at hiff
      simp [Except.isOk, Except.toBool] at hiff ⊢
      exact hiff
    | ok vals =>
      rw [hm] at hiff
      simp [Except.isOk, Except.toBool] at hiff ⊢
      exact hiff
  · intro t2 h2
    unfold RowTable.appendRow at h2
    cases hm : r.collect t.columns with
    | error e => rw [hm] at h2; cases h2
    | ok vals =>
      rw [hm] at h2
      cases h2
      exact ⟨vals, rfl, collect_ok_length _ _ _ hm⟩

/-- C7 witness: a matching one-column row appends successfully, and the
stored row has exactly one cell. -/
theorem c7_append_row_witness :
    (RowTable.appendRow ⟨["A"], []⟩ ⟨["A"], [Value.Integer 5]⟩).isOk = true ∧
    ∃ vals, ([[Value.Integer 5]] : List (List Value)) = [] ++ [vals] ∧
      vals.length = (["A"] : List String).length :=
  ⟨(c7_append_row ⟨["A"], []⟩ ⟨["A"], [Value.Integer 5]⟩).1.mpr (by decide),
   by
    have := (c7_append_row ⟨["A"], []⟩ ⟨["A"], [Value.Integer 5]⟩).2
      ⟨["A"], [[Value.Integer 5]]⟩ rfl
    exact this⟩

/-! ## Claim C3 -/

/-- The distinct count equals the length exactly for duplicate-free lists. -/
theorem dedup_length_eq_iff {α : Type} [DecidableEq α] (l : List α) :
    l.dedup.length = l.length ↔ l.Nodup := by
  constructor
  · intro h
    have hsub : l.dedup.Sublist l := List.dedup_sublist l
    have heq : l.dedup = l := hsub.eq_of_length h
    rw [← heq]
    exact List.nodup_dedup l
  · intro h
    rw [List.dedup_eq_self.mpr h]

/-- C3 counterexample: the mapped backend `LargeTable::load` performs no
duplicate-header check: loading a file whose header record is `A,A` (two
fields both decoding to `"A"`) succeeds and keeps both occurrences in the
column list. -/
theorem c3_counterexample :
    (LargeTable.load ("A,A\n1,2\n".toList) [[(0, 1), (2, 3)], [(4, 5), (6, 7)]]
        none).inner.columns = ["A", "A"] ∧
    ¬ (["A", "A"] : List String).Nodup := ⟨rfl, by decide⟩

/-- C3 amended: the owned backend's `from_csv` and `from_csv_with_schema`
and the `MMapTable` mapped backend's `map_file` all fail with the
"Duplicate columns detected in the file" error whenever the header contains
a repeated name, but the `LargeTable` mapped backend's `load` performs no
duplicate check: it keeps every header field (duplicates included) in the
column list. -/
theorem c3_duplicate_headers (p : Str → Option DTRec)
    (pdtf : Str → Str → Option DTRec) (pdf : Str → Str → Option DateRec)
    (ptf : Str → Str → Option TimeRec)
    (records : List (List String)) (schema : List ValueType)
    (tok : List Char → List String) (mmap : List Char) (e1 e2 : Nat) (ends : List Nat)
    (mmap2 : List Char) (records2 : List (List (Nat × Nat)))
    (schema2 : Option (List ValueType))
    (hdup : ¬ (records.headD []).Nodup) (hdup2 : ¬ (tok (mmap.take e1)).Nodup) :
    RowTable.fromCsv p records = Except.error ⟨"Duplicate columns detected in the file"⟩ ∧
    RowTable.fromCsvWithSchema p pdtf pdf ptf records schema
      = some (Except.error ⟨"Duplicate columns detected in the file"⟩) ∧
    MMapTable.mapFile tok mmap (e1 :: e2 :: ends)
      = some (Except.error ⟨"Duplicate columns detected in the file"⟩) ∧
    (LargeTable.load mmap2 records2 schema2).inner.columns.length
      = (records2.headD []).length := by
  have hc : ¬ ((records.headD []).dedup.length = (records.headD []).length) := by
    intro h
    exact hdup ((dedup_length_eq_iff _).mp h)
  have hc2 : ¬ ((tok (mmap.take e1)).dedup.length = (tok (mmap.take e1)).length) := by
    intro h
    exact hdup2 ((dedup_length_eq_iff _).mp h)
  refine ⟨?_, ?_, ?_, ?_⟩
  · simp only [RowTable.fromCsv]
    rw [if_pos hc]
  · simp only [RowTable.fromCsvWithSchema]
    rw [if_pos hc]
  · simp only [MMapTable.mapFile, List.dropLast, List.get?]
    rw [if_pos hc2]
  · simp [LargeTable.load]

/-- C3 witness: the three checking loaders reject the concrete duplicate
header `["A", "A"]`, and the unchecked `LargeTable::load` keeps both
fields. -/
theorem c3_duplicate_headers_witness :
    RowTable.fromCsv (fun _ => none) [["A", "A"], ["1", "2"]]
      = Except.error ⟨"Duplicate columns detected in the file"⟩ ∧
    RowTable.fromCsvWithSchema (fun _ => none) (fun _ _ => none) (fun _ _ => none)
      (fun _ _ => none) [["A", "A"], ["1", "2"]] [ValueType.String, ValueType.String]
      = some (Except.error ⟨"Duplicate columns detected in the file"⟩) ∧
    MMapTable.mapFile (fun _ => ["A", "A"]) ("A,A\n1,2\n".toList) (4 :: 8 :: [])
      = some (Except.error ⟨"Duplicate columns detected in the file"⟩) ∧
    (LargeTable.load ("A,A\n1,2\n".toList) [[(0, 1), (2, 3)], [(4, 5), (6, 7)]]
        none).inner.columns.length
      = ([[(0, 1), (2, 3)], [(4, 5), (6, 7)]].headD (α := List (Nat × Nat)) []).length :=
  c3_duplicate_headers (fun _ => none) (fun _ _ => none) (fun _ _ => none) (fun _ _ => none)
    [["A", "A"], ["1", "2"]] [ValueType.String, ValueType.String]
    (fun _ => ["A", "A"]) ("A,A\n1,2\n".toList) 4 8 []
    ("A,A\n1,2\n".toList) [[(0, 1), (2, 3)], [(4, 5), (6, 7)]] none
    (by decide) (by decide)

/-! ## Claim C2 -/

/-- Indices collected by the `find_by` scan starting at index `k` are at
least `k` and characterize exactly the matching rows. -/
theorem matchedIdx_mem (pred : List Value → Bool) :
    ∀ (l : List (List Value)) (k i : Nat),
      (i ∈ ((List.enumFrom k l).filter (fun pr => pred pr.2)).map Prod.fst ↔
        (k ≤ i ∧ i - k < l.length ∧ pred (l.getD (i - k) []) = true)) := by
  intro l
  induction l with
  | nil => intro k i; simp [List.enumFrom]
  | cons a l ih =>
    intro k i
    simp only [List.enumFrom]
    by_cases hp : pred a
    · rw [List.filter_cons_of_pos (by simpa using hp), List.map_cons]
      rw [List.mem_cons, ih (k + 1) i]
      constructor
      · rintro (rfl | ⟨h1, h2, h3⟩)
        · refine ⟨le_rfl, by simp, ?_⟩
          simpa using hp
        · refine ⟨by omega, by simp only [List.length_cons]; omega, ?_⟩
          have he : i - k = (i - (k + 1)) + 1 := by omega
          rw [he, List.getD_cons_succ]
          exact h3
      · rintro ⟨h1, h2, h3⟩
        by_cases hik : i = k
        · exact Or.inl hik
        · refine Or.inr ⟨by omega, ?_, ?_⟩
          · simp only [List.length_cons] at h2
            omega
          · have he : i - k = (i - (k + 1)) + 1 := by omega
            rw [he, List.getD_cons_succ] at h3
            exact h3
    · rw [List.filter_cons_of_neg (by simpa using hp)]
      rw [ih (k + 1) i]
      constructor
      · rintro ⟨h1, h2, h3⟩
        refine ⟨by omega, by simp only [List.length_cons]; omega, ?_⟩
        have he : i - k = (i - (k + 1)) + 1 := by omega
        rw [he, List.getD_cons_succ]
        exact h3
      · rintro ⟨h1, h2, h3⟩
        by_cases hik : i = k
        · subst hik
          simp only [Nat.sub_self, List.getD_cons_zero] at h3
          exact absurd h3 (by simpa using hp)
        · refine ⟨by omega, ?_, ?_⟩
          · simp only [List.length_cons] at h2
            omega
          · have he : i - k = (i - (k + 1)) + 1 := by omega
            rw [he, List.getD_cons_succ] at h3
            exact h3

/-- The indices collected by the `find_by` scan are strictly increasing. -/
theorem matchedIdx_pairwise (pred : List Value → Bool) :
    ∀ (l : List (List Value)) (k : Nat),
      (((List.enumFrom k l).filter (fun pr => pred pr.2)).map Prod.fst).Pairwise
        (fun a b => a < b) := by
  intro l
  induction l with
  | nil => intro k; simp [List.enumFrom]
  | cons a l ih =>
    intro k
    simp only [List.enumFrom]
    by_cases hp : pred a
    · rw [List.filter_cons_of_pos (by simpa using hp), List.map_cons]
      refine List.Pairwise.cons ?_ (ih (k + 1))
      intro b hb
      have := ((matchedIdx_mem pred l (k + 1) b).mp hb).1
      omega
    · rw [List.filter_cons_of_neg (by simpa using hp)]
      exact ih (k + 1)

/-- C2 counterexample: `LargeTable::filter_by` collects rayon `par_bridge`
output in delivery order; under the delivery order that reverses the two
matches (both rows match the always-true predicate), the resulting row list
is reversed — not the ascending source order the claim requires.  The third
conjunct records that this delivery order is a permutation of the matches,
i.e. a legitimate parallel collection order. -/
theorem c2_counterexample :
    LargeTable.filterBy List.reverse
        ⟨⟨["A"], "A\n1\n2\n".toList, none⟩, [[(2, 3)], [(4, 5)]]⟩ (fun _ => true)
      = Except.ok ⟨⟨["A"], "A\n1\n2\n".toList, none⟩, [[(4, 5)], [(2, 3)]]⟩ ∧
    ([[(4, 5)], [(2, 3)]] : List (List (Nat × Nat))) ≠ [[(2, 3)], [(4, 5)]] ∧
    (List.reverse ([[(2, 3)], [(4, 5)]] : List (List (Nat × Nat)))).Perm
      [[(2, 3)], [(4, 5)]] := by
  refine ⟨rfl, by decide, by decide⟩

/-- C2 amended: `RowTable::find_by` returns exactly the indices of the rows
satisfying the predicate, in strictly ascending (original) order;
`LargeTable::filter_by` returns exactly the matching rows but only up to
the parallel delivery order of `par_bridge` — a permutation of the
sequential matches, with no ordering guarantee. -/
theorem c2_find_filter (t : RowTableInner) (pred : List Value → Bool)
    (lt : LargeTable) (lpred : List (Nat × Nat) → Bool)
    (sched : List (List (Nat × Nat)) → List (List (Nat × Nat)))
    (hs : ∀ l, (sched l).Perm l) :
    (∀ sl, RowTable.findBy t pred = Except.ok sl →
      sl.rows.Pairwise (fun a b => a < b) ∧
      (∀ i, i ∈ sl.rows ↔ (i < t.rows.length ∧ pred (t.rows.getD i []) = true))) ∧
    (∀ t2, LargeTable.filterBy sched lt lpred = Except.ok t2 →
      t2.rows.Perm (lt.rows.filter lpred)) := by
  constructor
  · intro sl hsl
    injection hsl with h
    subst h
    constructor
    · have := matchedIdx_pairwise pred t.rows 0
      simpa [List.enum] using this
    · intro i
      have := matchedIdx_mem pred t.rows 0 i
      simpa [List.enum] using this
  · intro t2 h2
    injection h2 with h
    subst h
    exact hs _

/-- C2 witness: on a concrete three-row table the matching indices are
`[0, 2]`, strictly ascending, membership matches the predicate, and a
concrete `filter_by` output is a permutation of the sequential matches. -/
theorem c2_find_filter_witness :
    ((⟨columnMapOf ["A"],
        ((List.enum [[Value.Integer 1], [Value.Integer 2], [Value.Integer 1]]).filter
            (fun pr => decide (pr.2.getD 0 Value.Empty = Value.Integer 1))).map Prod.fst,
        ⟨["A"], [[Value.Integer 1], [Value.Integer 2], [Value.Integer 1]]⟩⟩ :
        RowTableSlice)).rows.Pairwise (fun a b => a < b) ∧
    (([[(0, 1)], [(2, 3)]] : List (List (Nat × Nat))).Perm
      (([[(0, 1)], [(2, 3)]] : List (List (Nat × Nat))).filter (fun _ => true))) :=
  ⟨((c2_find_filter ⟨["A"], [[Value.Integer 1], [Value.Integer 2], [Value.Integer 1]]⟩
      (fun row => decide (row.getD 0 Value.Empty = Value.Integer 1))
      ⟨⟨["A"], [], none⟩, [[(0, 1)], [(2, 3)]]⟩ (fun _ => true)
      id (fun l => List.Perm.refl l)).1 _ rfl).1,
   (c2_find_filter ⟨["A"], [[Value.Integer 1], [Value.Integer 2], [Value.Integer 1]]⟩
      (fun row => decide (row.getD 0 Value.Empty = Value.Integer 1))
      ⟨⟨["A"], [], none⟩, [[(0, 1)], [(2, 3)]]⟩ (fun _ => true)
      id (fun l => List.Perm.refl l)).2 ⟨⟨["A"], [], none⟩, [[(0, 1)], [(2, 3)]]⟩ rfl⟩

/-! ## Claim C9 : digit-printer lemmas -/

/-- A digit character is a digit. -/
theorem digitChar_isDigit (d : Nat) (h : d < 10) : (Char.ofNat (48 + d)).isDigit = true := by
  interval_cases d <;> decide

/-- The numeric value of a digit character. -/
theorem digitVal_digitChar (d : Nat) (h : d < 10) : digitVal (Char.ofNat (48 + d)) = d := by
  interval_cases d <;> decide

/-- Every character printed by the decimal printer is a digit. -/
theorem natDigitsRevFuel_digits (fuel : Nat) :
    ∀ n, n < fuel → ∀ c ∈ natDigitsRevFuel n fuel, c.isDigit = true := by
  induction fuel with
  | zero => intro n h; omega
  | succ fuel ih =>
    intro n h c hc
    unfold natDigitsRevFuel at hc
    by_cases h10 : n < 10
    · simp only [h10, if_pos, List.mem_singleton] at hc
      subst hc
      exact digitChar_isDigit n h10
    · simp only [h10, if_neg, List.mem_cons, not_false_iff] at hc
      rcases hc with hc | hc
      · subst hc
        exact digitChar_isDigit _ (Nat.mod_lt _ (by omega))
      · refine ih (n / 10) ?_ c hc
        have : n / 10 < n := Nat.div_lt_self (by omega) (by omega)
        omega

/-- Every character printed by `natDigitsRev` is a digit. -/
theorem natDigitsRev_digits (n : Nat) : ∀ c ∈ natDigitsRev n, c.isDigit = true :=
  natDigitsRevFuel_digits (n + 1) n (Nat.lt_succ_self n)

/-- The decimal printer emits at least one character. -/
theorem natDigitsRev_ne_nil (n : Nat) : natDigitsRev n ≠ [] := by
  unfold natDigitsRev natDigitsRevFuel
  by_cases h10 : n < 10 <;> simp [h10]

/-- Folding the decimal-accumulation step from an arbitrary accumulator. -/
theorem foldl_digits (ys : List Char) :
    ∀ a : Nat, ys.foldl (fun a c => 10 * a + digitVal c) a
      = a * 10 ^ ys.length + digitsToNat ys := by
  induction ys with
  | nil => intro a; simp [digitsToNat]
  | cons c ys ih =>
    intro a
    have h1 : digitsToNat (c :: ys) = digitVal c * 10 ^ ys.length + digitsToNat ys := by
      show (c :: ys).foldl _ 0 = _
      rw [List.foldl_cons, ih]
      simp
    rw [List.foldl_cons, ih, h1]
    simp only [List.length_cons, pow_succ]
    ring

/-- `digitsToNat` on a cons. -/
theorem digitsToNat_cons (c : Char) (ys : List Char) :
    digitsToNat (c :: ys) = digitVal c * 10 ^ ys.length + digitsToNat ys := by
  show (c :: ys).foldl _ 0 = _
  rw [List.foldl_cons, foldl_digits]
  simp

/-- `digitsToNat` distributes over append positionally. -/
theorem digitsToNat_append (xs ys : List Char) :
    digitsToNat (xs ++ ys) = digitsToNat xs * 10 ^ ys.length + digitsToNat ys := by
  show (xs ++ ys).foldl _ 0 = _
  rw [List.foldl_append]
  exact foldl_digits ys _

/-- Reading the printed digits of `n` back gives `n`. -/
theorem digitsToNat_natDigitsRevFuel (fuel : Nat) :
    ∀ n, n < fuel → digitsToNat (natDigitsRevFuel n fuel).reverse = n := by
  induction fuel with
  | zero => intro n h; omega
  | succ fuel ih =>
    intro n h
    unfold natDigitsRevFuel
    by_cases h10 : n < 10
    · simp only [h10, if_pos, List.reverse_singleton]
      rw [digitsToNat_cons]
      simp [digitsToNat, digitVal_digitChar n h10]
    · have hdiv : n / 10 < fuel := by
        have : n / 10 < n := Nat.div_lt_self (by omega) (by omega)
        omega
      simp only [h10, if_neg, List.reverse_cons, not_false_iff]
      rw [digitsToNat_append, ih (n / 10) hdiv]
      rw [digitsToNat_cons]
      simp [digitsToNat, digitVal_digitChar _ (Nat.mod_lt _ (show 0 < 10 by omega))]
      have := Nat.div_add_mod n 10
      omega

/-- Reading the printed digits of `n` back gives `n`. -/
theorem digitsToNat_natDigitsRev (n : Nat) : digitsToNat (natDigitsRev n).reverse = n :=
  digitsToNat_natDigitsRevFuel (n + 1) n (Nat.lt_succ_self n)

/-- The printer emits at most `k` digits for `n < 10 ^ k` (when `1 ≤ k`). -/
theorem natDigitsRevFuel_length (fuel : Nat) :
    ∀ n k, n < fuel → 1 ≤ k → n < 10 ^ k → (natDigitsRevFuel n fuel).length ≤ k := by
  induction fuel with
  | zero => intro n k h; omega
  | succ fuel ih =>
    intro n k h hk hnk
    unfold natDigitsRevFuel
    by_cases h10 : n < 10
    · simp only [h10, if_pos, List.length_singleton]
      omega
    · simp only [h10, if_neg, List.length_cons, not_false_iff]
      have hk2 : 2 ≤ k := by
        by_contra hcon
        have hk1 : k = 1 := by omega
        subst hk1
        simp only [pow_one] at hnk
        omega
      have hpow : (10 : Nat) ^ k = 10 ^ (k - 1) * 10 := by
        conv_lhs => rw [show k = (k - 1) + 1 by omega]
        rw [pow_succ]
      have h1 : n / 10 < 10 ^ (k - 1) := by
        rw [Nat.div_lt_iff_lt_mul (by norm_num)]
        rw [← hpow]
        exact hnk
      have h2 := ih (n / 10) (k - 1)
        (by
          have : n / 10 < n := Nat.div_lt_self (by omega) (by omega)
          omega)
        (by omega) h1
      omega

/-- Padding with zeros up to width `w` gives length exactly `w`. -/
theorem padZeros_length (w : Nat) (cs : List Char) (h : cs.length ≤ w) :
    (padZeros w cs).length = w := by
  simp [padZeros]
  omega

/-- The value of '0'. -/
theorem digitVal_zero : digitVal '0' = 0 := rfl

/-- Leading zeros contribute nothing. -/
theorem digitsToNat_replicate_zero (j : Nat) : digitsToNat (List.replicate j '0') = 0 := by
  induction j with
  | zero => rfl
  | succ j ih =>
    rw [List.replicate_succ, digitsToNat_cons, digitVal_zero, ih]
    simp

/-- Zero-padding does not change the value. -/
theorem digitsToNat_padZeros (w : Nat) (cs : List Char) :
    digitsToNat (padZeros w cs) = digitsToNat cs := by
  unfold padZeros
  rw [digitsToNat_append, digitsToNat_replicate_zero]
  simp

/-- Zero-padding a digit list yields a digit list. -/
theorem padZeros_digits (w : Nat) (cs : List Char) (h : ∀ c ∈ cs, c.isDigit = true) :
    ∀ c ∈ padZeros w cs, c.isDigit = true := by
  intro c hc
  unfold padZeros at hc
  rcases List.mem_append.mp hc with hc | hc
  · rw [List.eq_of_mem_replicate hc]
    decide
  · exact h c hc

/-- A digit character is none of the parser-significant special characters. -/
theorem digit_not_special (c : Char) (h : c.isDigit = true) :
    c ≠ '-' ∧ c ≠ '/' ∧ c ≠ ':' ∧ c ≠ '.' ∧ c ≠ 'e' ∧ c ≠ 'E' ∧ c ≠ '+' := by
  refine ⟨?_, ?_, ?_, ?_, ?_, ?_, ?_⟩ <;>
    (intro hEq; subst hEq; exact absurd h (by decide))

/-! ## Claim C9 : scan characterizations -/

/-- The separator characters counted by the datetime scan. -/
def dtSep (c : Char) : Bool := c = '-' || c = '/' || c = ':'

/-- The characters accepted by the datetime scan. -/
def dtGood (c : Char) : Bool := dtSep c || dtOtherChar c

/-- The characters accepted by the float scan. -/
def fltGood (c : Char) : Bool := c = '.' || (c.isDigit || c = '-')

/-- The datetime fold is absorbed by a failed accumulator. -/
theorem dtFold_none (cs : List Char) :
    cs.foldl
      (fun acc c => acc.bind (fun sum =>
        if c = '-' ∨ c = '/' ∨ c = ':' then some (sum + 1)
        else if dtOtherChar c then some sum
        else none))
      (none : Option Int) = none := by
  induction cs with
  | nil => rfl
  | cons c cs ih =>
    rw [List.foldl_cons]
    exact ih

/-- Characterization of the datetime fold from a live accumulator. -/
theorem dtFold_char (cs : List Char) :
    ∀ k : Int,
      cs.foldl
        (fun acc c => acc.bind (fun sum =>
          if c = '-' ∨ c = '/' ∨ c = ':' then some (sum + 1)
          else if dtOtherChar c then some sum
          else none))
        (some k)
      = if cs.all dtGood = true then some (k + (cs.countP dtSep : Int)) else none := by
  induction cs with
  | nil => intro k; simp
  | cons c cs ih =>
    intro k
    rw [List.foldl_cons]
    by_cases h1 : c = '-' ∨ c = '/' ∨ c = ':'
    · have hsep : dtSep c = true := by
        rcases h1 with h | h | h <;> (subst h; decide)
      have hgood : dtGood c = true := by simp [dtGood, hsep]
      simp only [Option.some_bind, if_pos h1]
      rw [ih (k + 1)]
      by_cases hall : cs.all dtGood = true
      · simp only [List.all_cons, hgood, hall, Bool.true_and, if_pos]
        rw [List.countP_cons_of_pos _ _ hsep]
        congr 1
        push_cast
        ring
      · simp only [List.all_cons, hgood, hall, Bool.true_and]
        simp [hall]
    · by_cases h2 : dtOtherChar c = true
      · have hsep : dtSep c = false := by
          simp only [dtSep, Bool.or_eq_false_iff, decide_eq_false_iff_not]
          push_neg at h1
          exact ⟨⟨h1.1, h1.2.1⟩, h1.2.2⟩
        have hgood : dtGood c = true := by simp [dtGood, h2]
        simp only [Option.some_bind, if_neg h1, if_pos h2]
        rw [ih k]
        by_cases hall : cs.all dtGood = true
        · simp only [List.all_cons, hgood, hall, Bool.true_and, if_pos]
          rw [List.countP_cons_of_neg _ _ (by simp [hsep])]
        · simp only [List.all_cons, hgood, hall, Bool.true_and]
          simp [hall]
      · have hgood : dtGood c = false := by
          simp only [dtGood, Bool.or_eq_false_iff, dtSep, decide_eq_false_iff_not]
          push_neg at h1
          refine ⟨⟨⟨h1.1, h1.2.1⟩, h1.2.2⟩, ?_⟩
          simpa using h2
        simp only [Option.some_bind, if_neg h1, if_neg h2]
        rw [dtFold_none]
        simp [List.all_cons, hgood]

/-- `dtCharCount` in terms of character classes. -/
theorem dtCharCount_mk (cs : List Char) :
    dtCharCount (String.mk cs)
      = if cs.all dtGood = true then some ((cs.countP dtSep : Nat) : Int) else none := by
  show cs.foldl _ (some 0) = _
  rw [dtFold_char cs 0]
  simp

/-- The float fold is absorbed by a failed accumulator. -/
theorem floatFold_none (cs : List Char) :
    cs.foldl
      (fun acc c => acc.bind (fun sum =>
        if c = '.' then some (sum + 1)
        else if c.isDigit ∨ c = '-' then some sum
        else none))
      (none : Option Int) = none := by
  induction cs with
  | nil => rfl
  | cons c cs ih =>
    rw [List.foldl_cons]
    exact ih

/-- Characterization of the float fold from a live accumulator. -/
theorem floatFold_char (cs : List Char) :
    ∀ k : Int,
      cs.foldl
        (fun acc c => acc.bind (fun sum =>
          if c = '.' then some (sum + 1)
          else if c.isDigit ∨ c = '-' then some sum
          else none))
        (some k)
      = if cs.all fltGood = true
          then some (k + (cs.countP (fun c => c = '.') : Int)) else none := by
  induction cs with
  | nil => intro k; simp
  | cons c cs ih =>
    intro k
    rw [List.foldl_cons]
    by_cases h1 : c = '.'
    · subst h1
      have hgood : fltGood '.' = true := by decide
      simp only [Option.some_bind, if_true]
      rw [ih (k + 1)]
      by_cases hall : cs.all fltGood = true
      · simp only [List.all_cons, hgood, hall, Bool.true_and, if_pos]
        rw [List.countP_cons_of_pos _ _ (by decide)]
        congr 1
        push_cast
        ring
      · simp only [List.all_cons, hgood, hall, Bool.true_and]
        simp [hall]
    · by_cases h2 : c.isDigit = true ∨ c = '-'
      · have hgood : fltGood c = true := by
          simp only [fltGood, Bool.or_eq_true, decide_eq_true_eq]
          rcases h2 with h | h
          · exact Or.inr (Or.inl h)
          · exact Or.inr (Or.inr h)
        have hdot : (fun c : Char => decide (c = '.')) c = false := by
          simpa using h1
        simp only [Option.some_bind, if_neg h1,
          if_pos (show c.isDigit = true ∨ c = '-' from h2)]
        rw [ih k]
        by_cases hall : cs.all fltGood = true
        · simp only [List.all_cons, hgood, hall, Bool.true_and, if_pos]
          rw [List.countP_cons_of_neg _ _ (by simpa using h1)]
        · simp only [List.all_cons, hgood, hall, Bool.true_and]
          simp [hall]
      · have hgood : fltGood c = false := by
          simp only [fltGood, Bool.or_eq_false_iff, decide_eq_false_iff_not]
          push_neg at h2
          exact ⟨h1, by simpa using h2.1, h2.2⟩
        simp only [Option.some_bind, if_neg h1, if_neg h2]
        rw [floatFold_none]
        simp [List.all_cons, hgood]

/-- `floatCharCount` in terms of character classes. -/
theorem floatCharCount_mk (cs : List Char) :
    floatCharCount (String.mk cs)
      = if cs.all fltGood = true
          then some ((cs.countP (fun c => c = '.') : Nat) : Int) else none := by
  show cs.foldl _ (some 0) = _
  rw [floatFold_char cs 0]
  simp

/-- `splitExp` is the identity when no exponent marker occurs. -/
theorem splitExp_no_exp (cs : List Char) (h : ∀ c ∈ cs, ¬(c = 'e' ∨ c = 'E')) :
    splitExp cs = (cs, none) := by
  induction cs with
  | nil => rfl
  | cons c cs ih =>
    unfold splitExp
    rw [if_neg (h c (by simp))]
    rw [ih (fun c hc => h c (by simp [hc]))]

/-- `takeWhile` stops exactly at the first failing character. -/
theorem takeWhile_append_stop {p : Char → Bool} (xs : List Char) (y : Char) (ys : List Char)
    (hx : ∀ c ∈ xs, p c = true) (hy : p y = false) :
    (xs ++ y :: ys).takeWhile p = xs := by
  induction xs with
  | nil => simp [List.takeWhile_cons, hy]
  | cons a xs ih =>
    simp only [List.cons_append, List.takeWhile_cons, hx a (by simp), if_true]
    rw [ih (fun c hc => hx c (by simp [hc]))]

/-- `dropWhile` drops exactly up to the first failing character. -/
theorem dropWhile_append_stop {p : Char → Bool} (xs : List Char) (y : Char) (ys : List Char)
    (hx : ∀ c ∈ xs, p c = true) (hy : p y = false) :
    (xs ++ y :: ys).dropWhile p = y :: ys := by
  induction xs with
  | nil => simp [List.dropWhile_cons, hy]
  | cons a xs ih =>
    simp only [List.cons_append, List.dropWhile_cons, hx a (by simp), if_true]
    rw [ih (fun c hc => hx c (by simp [hc]))]

/-! ## Claim C9 : character classes of printed strings -/

/-- Digits are not datetime separators. -/
theorem dtSep_digit (c : Char) (h : c.isDigit = true) : dtSep c = false := by
  obtain ⟨h1, h2, h3, -, -, -, -⟩ := digit_not_special c h
  simp [dtSep, h1, h2, h3]

/-- Digits pass the datetime scan. -/
theorem dtGood_digit (c : Char) (h : c.isDigit = true) : dtGood c = true := by
  simp [dtGood, dtOtherChar, h]

/-- Digits pass the float scan. -/
theorem fltGood_digit (c : Char) (h : c.isDigit = true) : fltGood c = true := by
  simp [fltGood, h]

/-- Digits are not the decimal point. -/
theorem digit_ne_dot (c : Char) (h : c.isDigit = true) :
    (fun c : Char => decide (c = '.')) c = false := by
  simpa using (digit_not_special c h).2.2.2.1

/-- Prepending a character to a string built from a character list. -/
theorem strMk_cons (c : Char) (l : List Char) :
    String.mk [c] ++ String.mk l = String.mk (c :: l) := rfl

/-- A string built from a nonempty list is not the empty string. -/
theorem strMk_ne_empty (l : List Char) (h : l ≠ []) : ¬ String.mk l = "" := by
  simp [String.ext_iff]
  exact h

/-! ## Claim C9 : `parseI64` on printed integers -/

/-- `str::parse::<i64>` on a nonempty all-digit string returns its value
(when in range). -/
theorem parseI64_digits (ds : List Char) (hne : ds ≠ [])
    (hd : ∀ c ∈ ds, c.isDigit = true)
    (hval : (digitsToNat ds : Int) < 2 ^ 63) :
    parseI64 (String.mk ds) = some ((digitsToNat ds : Int)) := by
  cases ds with
  | nil => exact absurd rfl hne
  | cons d rest =>
    have hdig : d.isDigit = true := hd d (by simp)
    have h1 : d ≠ '-' := (digit_not_special d hdig).1
    have h2 : d ≠ '+' := (digit_not_special d hdig).2.2.2.2.2.2
    simp only [parseI64]
    rw [show (String.mk (d :: rest)).toList = d :: rest from rfl]
    have hsigned : (match d :: rest with
      | '-' :: rest => ((-1 : Int), rest)
      | '+' :: rest => ((1 : Int), rest)
      | rest => ((1 : Int), rest)) = ((1 : Int), d :: rest) := by
      split
      · next r heq => injection heq with ha hb; exact absurd ha h1
      · next r heq => injection heq with ha hb; exact absurd ha h2
      · rfl
    rw [hsigned]
    rw [if_neg]
    · rw [if_pos]
      · simp
      · constructor
        · simp
          exact le_trans (by norm_num) (Int.natCast_nonneg (digitsToNat (d :: rest)))
        · simpa using hval
    · simp [hd]
      intro x hx
      exact hd x (by simp [hx])

/-- `str::parse::<i64>` on a minus sign followed by digits returns the
negated value (when in range). -/
theorem parseI64_neg (ds : List Char) (hne : ds ≠ [])
    (hd : ∀ c ∈ ds, c.isDigit = true)
    (hval : (digitsToNat ds : Int) ≤ 2 ^ 63) :
    parseI64 (String.mk ('-' :: ds)) = some (-(digitsToNat ds : Int)) := by
  simp only [parseI64]
  rw [show (String.mk ('-' :: ds)).toList = '-' :: ds from rfl]
  have hsigned : (match '-' :: ds with
    | '-' :: rest => ((-1 : Int), rest)
    | '+' :: rest => ((1 : Int), rest)
    | rest => ((1 : Int), rest)) = ((-1 : Int), ds) := rfl
  rw [hsigned]
  rw [if_neg]
  · rw [if_pos]
    · simp
    · constructor
      · simp
        have := Int.natCast_nonneg (digitsToNat ds)
        omega
      · simp
        have := Int.natCast_nonneg (digitsToNat ds)
        have h63 : (0 : Int) < 2 ^ 63 := by norm_num
        omega
  · simp [hd, hne]
    intro x hx
    exact hd x hx

/-! ## Claim C9 : `Value::new` branch lemmas -/

/-- `Value::new` lands in the integer branch when both scans return counts
that skip their branches and the string is all digits/minus. -/
theorem valueNew_int_branch (p : Str → Option DTRec) (s : Str) (hne : ¬ s = "")
    (hdt : dtCharCount s = some 0)
    (hfl : floatCharCount s = some 0)
    (hall : s.toList.all (fun c => c.isDigit || c = '-') = true)
    (i : Int) (hint : parseI64 s = some i) :
    Value.new p s = Value.Integer i := by
  simp at hall
  simp [Value.new, hne, hdt, hfl, hint]
  intro x hx hdx
  rcases hall x hx with h | h
  · rw [h] at hdx; cases hdx
  · exact h

/-- `Value::new` lands in the integer branch also when the datetime scan is
positive but the external parser rejects the string. -/
theorem valueNew_int_branch_dtfail (p : Str → Option DTRec) (s : Str) (hne : ¬ s = "")
    (n : Int) (hdt : dtCharCount s = some n) (hpos : 0 < n)
    (hp : p s = none)
    (hfl : floatCharCount s = some 0)
    (hall : s.toList.all (fun c => c.isDigit || c = '-') = true)
    (i : Int) (hint : parseI64 s = some i) :
    Value.new p s = Value.Integer i := by
  simp at hall
  simp [Value.new, hne, hdt, hpos, hp, hfl, hint]
  intro x hx hdx
  rcases hall x hx with h | h
  · rw [h] at hdx; cases hdx
  · exact h

/-- `Value::new` lands in the float branch when the datetime scan rejects
the string, the float scan counts one dot, and the float grammar accepts. -/
theorem valueNew_float_branch (p : Str → Option DTRec) (s : Str) (hne : ¬ s = "")
    (hdt : dtCharCount s = none)
    (hfl : floatCharCount s = some 1) (hok : parseF64ok s = true) :
    Value.new p s = Value.Float (parseF64val s) := by
  simp [Value.new, hne, hdt, hfl, hok]

/-! ## Claim C9 : integer round-trips -/

/-- Re-parsing the display of a non-negative in-range `Integer` gives it
back, for every datetime parser (the all-digit display never reaches it). -/
theorem roundtrip_int_nonneg (p : Str → Option DTRec) (i : Int)
    (h0 : 0 ≤ i) (h63 : i < 2 ^ 63) :
    Value.new p (Value.display (Value.Integer i)) = Value.Integer i := by
  have hdisp : Value.display (Value.Integer i)
      = String.mk (natDigitsRev i.toNat).reverse := by
    simp [Value.display, intRepr, not_lt.mpr h0, natRepr]
  have hdig : ∀ c ∈ (natDigitsRev i.toNat).reverse, c.isDigit = true := by
    intro c hc
    exact natDigitsRev_digits i.toNat c (List.mem_reverse.mp hc)
  have hne : (natDigitsRev i.toNat).reverse ≠ [] := by
    simp
    exact natDigitsRev_ne_nil i.toNat
  rw [hdisp]
  apply valueNew_int_branch
  · exact strMk_ne_empty _ hne
  · rw [dtCharCount_mk]
    rw [if_pos (by
      simp only [List.all_eq_true]
      exact fun c hc => dtGood_digit c (hdig c hc))]
    rw [List.countP_eq_zero.mpr (fun c hc => by simp [dtSep_digit c (hdig c hc)])]
    rfl
  · rw [floatCharCount_mk]
    rw [if_pos (by
      simp only [List.all_eq_true]
      exact fun c hc => fltGood_digit c (hdig c hc))]
    rw [List.countP_eq_zero.mpr (fun c hc => by simp [(digit_not_special c (hdig c hc)).2.2.2.1])]
    rfl
  · rw [show (String.mk (natDigitsRev i.toNat).reverse).toList
        = (natDigitsRev i.toNat).reverse from rfl]
    simp only [List.all_eq_true]
    intro c hc
    simp [hdig c hc]
  · rw [parseI64_digits _ hne hdig]
    · rw [digitsToNat_natDigitsRev]
      rw [Int.toNat_of_nonneg h0]
    · rw [digitsToNat_natDigitsRev]
      rw [Int.toNat_of_nonneg h0]
      exact h63

/-- Re-parsing the display of a negative in-range `Integer` gives it back,
provided the external datetime parser rejects the minus-prefixed digit
string (which does pass the character scan and is offered to it). -/
theorem roundtrip_int_neg (p : Str → Option DTRec) (i : Int)
    (hneg : i < 0) (h63 : -(2 ^ 63) ≤ i)
    (hp : p (Value.display (Value.Integer i)) = none) :
    Value.new p (Value.display (Value.Integer i)) = Value.Integer i := by
  have hdisp : Value.display (Value.Integer i)
      = String.mk ('-' :: (natDigitsRev (-i).toNat).reverse) := by
    simp only [Value.display, intRepr, if_pos hneg, natRepr]
    rw [show ("-" : String) = String.mk ['-'] from rfl, strMk_cons]
  have hdig : ∀ c ∈ (natDigitsRev (-i).toNat).reverse, c.isDigit = true := by
    intro c hc
    exact natDigitsRev_digits (-i).toNat c (List.mem_reverse.mp hc)
  have hne : (natDigitsRev (-i).toNat).reverse ≠ [] := by
    simp
    exact natDigitsRev_ne_nil (-i).toNat
  rw [hdisp] at hp ⊢
  refine valueNew_int_branch_dtfail p _ ?_ 1 ?_ (by norm_num) hp ?_ ?_ i ?_
  · exact strMk_ne_empty _ (by simp)
  · rw [dtCharCount_mk]
    rw [if_pos (by
      simp only [List.all_cons, List.all_eq_true, Bool.and_eq_true]
      refine ⟨by decide, fun c hc => dtGood_digit c (hdig c hc)⟩)]
    rw [List.countP_cons_of_pos _ _ (by decide)]
    rw [List.countP_eq_zero.mpr (fun c hc => by simp [dtSep_digit c (hdig c hc)])]
    rfl
  · rw [floatCharCount_mk]
    rw [if_pos (by
      simp only [List.all_cons, List.all_eq_true, Bool.and_eq_true]
      refine ⟨by decide, fun c hc => fltGood_digit c (hdig c hc)⟩)]
    rw [List.countP_cons_of_neg _ _ (by decide)]
    rw [List.countP_eq_zero.mpr (fun c hc => by simp [(digit_not_special c (hdig c hc)).2.2.2.1])]
    rfl
  · rw [show (String.mk ('-' :: (natDigitsRev (-i).toNat).reverse)).toList
        = '-' :: (natDigitsRev (-i).toNat).reverse from rfl]
    simp only [List.all_cons, List.all_eq_true, Bool.and_eq_true]
    refine ⟨by decide, fun c hc => by simp [hdig c hc]⟩
  · rw [parseI64_neg _ hne hdig]
    · rw [digitsToNat_natDigitsRev]
      congr 1
      omega
    · rw [digitsToNat_natDigitsRev]
      omega

/-! ## Claim C9 : float-grammar lemmas -/

/-- `powCount` reaches at least the exponent of any prime-power divisor,
given enough fuel. -/
theorem powCount_ge (pp : Nat) (hpp : 2 ≤ pp) :
    ∀ (aa fuel n : Nat), 0 < n → pp ^ aa ∣ n → n ≤ fuel → aa ≤ powCount pp n fuel := by
  intro aa
  induction aa with
  | zero => intro fuel n _ _ _; exact Nat.zero_le _
  | succ aa ih =>
    intro fuel n hn hdvd hfuel
    have hpdvd : pp ∣ n := dvd_trans (dvd_pow_self pp (Nat.succ_ne_zero aa)) hdvd
    have hmod : n % pp = 0 := Nat.mod_eq_zero_of_dvd hpdvd
    cases fuel with
    | zero => omega
    | succ fuel =>
      unfold powCount
      rw [if_pos ⟨hpp, hn, hmod⟩]
      have h1 : 0 < n / pp := Nat.div_pos (Nat.le_of_dvd hn hpdvd) (by omega)
      have h2 : pp ^ aa ∣ n / pp := by
        rw [Nat.dvd_div_iff_mul_dvd hpdvd]
        rw [← pow_succ']
        exact hdvd
      have h3 : n / pp ≤ fuel := by
        have := Nat.div_lt_self hn (show 1 < pp by omega)
        omega
      have := ih fuel (n / pp) h1 h2 h3
      omega

/-- A character list containing a dot is no spelling of `inf`/`nan`. -/
theorem infNanOk_dot (cs : List Char) (h : '.' ∈ cs) : infNanOk cs = false := by
  simp only [infNanOk]
  have hmem : '.' ∈ cs.map Char.toLower := List.mem_map.mpr ⟨'.', h, rfl⟩
  simp only [decide_eq_false_iff_not]
  rintro (h1 | h1 | h1) <;> (rw [h1] at hmem; revert hmem; decide)

/-- The Rust float grammar accepts a printed decimal `ip.fds` (digits, one
dot) and evaluates it exactly; likewise with a leading minus. -/
theorem parseF64_decimal (ip fds : List Char) (hip : ip ≠ [])
    (hipd : ∀ c ∈ ip, c.isDigit = true) (hfdsd : ∀ c ∈ fds, c.isDigit = true) :
    parseF64ok (String.mk (ip ++ '.' :: fds)) = true ∧
    parseF64val (String.mk (ip ++ '.' :: fds))
      = mkRat (digitsToNat (ip ++ fds) : Int) (10 ^ fds.length) ∧
    parseF64ok (String.mk ('-' :: (ip ++ '.' :: fds))) = true ∧
    parseF64val (String.mk ('-' :: (ip ++ '.' :: fds)))
      = mkRat (-(digitsToNat (ip ++ fds) : Int)) (10 ^ fds.length) := by
  have hdot : '.' ∈ ip ++ '.' :: fds := by simp
  have hnoE : ∀ c ∈ ip ++ '.' :: fds, ¬(c = 'e' ∨ c = 'E') := by
    intro c hc
    rcases List.mem_append.mp hc with hc | hc
    · obtain ⟨-, -, -, -, h5, h6, -⟩ := digit_not_special c (hipd c hc)
      tauto
    · rcases List.mem_cons.mp hc with rfl | hc
      · decide
      · obtain ⟨-, -, -, -, h5, h6, -⟩ := digit_not_special c (hfdsd c hc)
        tauto
  have hsplit := splitExp_no_exp _ hnoE
  have hinf := infNanOk_dot _ hdot
  have hdotcnt : (ip ++ '.' :: fds).count '.' = 1 := by
    rw [List.count_append]
    rw [List.count_eq_zero.mpr (fun hmem => by
      have := (digit_not_special '.' (hipd '.' hmem)).2.2.2.1
      exact this rfl)]
    rw [List.count_cons_self]
    rw [List.count_eq_zero.mpr (fun hmem => by
      have := (digit_not_special '.' (hfdsd '.' hmem)).2.2.2.1
      exact this rfl)]
  have hmant : mantissaOk (ip ++ '.' :: fds) = true := by
    simp only [mantissaOk, Bool.and_eq_true, List.any_eq_true, List.all_eq_true]
    refine ⟨⟨?_, ?_⟩, ?_⟩
    · obtain ⟨d, ip', rfl⟩ : ∃ d ip', ip = d :: ip' := by
        cases ip with
        | nil => exact absurd rfl hip
        | cons d ip' => exact ⟨d, ip', rfl⟩
      exact ⟨d, by simp, hipd d (by simp)⟩
    · intro c hc
      rcases List.mem_append.mp hc with hc | hc
      · simp [hipd c hc]
      · rcases List.mem_cons.mp hc with rfl | hc
        · simp
        · simp [hfdsd c hc]
    · rw [hdotcnt]
      decide
  have htake : (ip ++ '.' :: fds).takeWhile (fun c => c ≠ '.') = ip := by
    refine takeWhile_append_stop ip '.' fds ?_ (by simp)
    intro c hc
    simpa using (digit_not_special c (hipd c hc)).2.2.2.1
  have hdrop : ((ip ++ '.' :: fds).dropWhile (fun c => c ≠ '.')).drop 1 = fds := by
    rw [dropWhile_append_stop ip '.' fds ?_ (by simp)]
    · simp
    · intro c hc
      simpa using (digit_not_special c (hipd c hc)).2.2.2.1
  obtain ⟨d, ip', rfl⟩ : ∃ d ip', ip = d :: ip' := by
    cases ip with
    | nil => exact absurd rfl hip
    | cons d ip' => exact ⟨d, ip', rfl⟩
  have hd : d.isDigit = true := hipd d (by simp)
  have hd1 : d ≠ '-' := (digit_not_special d hd).1
  have hd2 : d ≠ '+' := (digit_not_special d hd).2.2.2.2.2.2
  rw [List.cons_append] at hmant htake hdrop hsplit hinf
  have hmatch : (match (d :: ip') ++ '.' :: fds with
      | '-' :: rest => rest
      | '+' :: rest => rest
      | rest => rest) = d :: (ip' ++ '.' :: fds) := by
    rw [List.cons_append]
    split
    · next r heq => injection heq with ha hb; exact absurd ha hd1
    · next r heq => injection heq with ha hb; exact absurd ha hd2
    · rfl
  have hmatch2 : (match (d :: ip') ++ '.' :: fds with
      | '-' :: rest => ((-1 : Int), rest)
      | '+' :: rest => ((1 : Int), rest)
      | rest => ((1 : Int), rest)) = ((1 : Int), d :: (ip' ++ '.' :: fds)) := by
    rw [List.cons_append]
    split
    · next r heq => injection heq with ha hb; exact absurd ha hd1
    · next r heq => injection heq with ha hb; exact absurd ha hd2
    · rfl
  refine ⟨?_, ?_, ?_, ?_⟩
  · simp only [parseF64ok]
    rw [show (String.mk ((d :: ip') ++ '.' :: fds)).toList = (d :: ip') ++ '.' :: fds from rfl]
    rw [hmatch, hinf]
    simp only [Bool.false_eq_true, if_false]
    rw [hsplit]
    simp [hmant]
  · simp only [parseF64val]
    rw [show (String.mk ((d :: ip') ++ '.' :: fds)).toList = (d :: ip') ++ '.' :: fds from rfl]
    rw [hmatch2]
    simp only []
    rw [hinf]
    simp only [Bool.false_eq_true, if_false]
    rw [hsplit]
    simp only [htake, hdrop]
    simp
  · simp only [parseF64ok]
    rw [show (String.mk ('-' :: ((d :: ip') ++ '.' :: fds))).toList
        = '-' :: ((d :: ip') ++ '.' :: fds) from rfl]
    rw [show (match '-' :: ((d :: ip') ++ '.' :: fds) with
      | '-' :: rest => rest
      | '+' :: rest => rest
      | rest => rest) = d :: (ip' ++ '.' :: fds) from rfl]
    rw [hinf]
    simp only [Bool.false_eq_true, if_false]
    rw [hsplit]
    simp [hmant]
  · simp only [parseF64val]
    rw [show (String.mk ('-' :: ((d :: ip') ++ '.' :: fds))).toList
        = '-' :: ((d :: ip') ++ '.' :: fds) from rfl]
    rw [show (match '-' :: ((d :: ip') ++ '.' :: fds) with
      | '-' :: rest => ((-1 : Int), rest)
      | '+' :: rest => ((1 : Int), rest)
      | rest => ((1 : Int), rest)) = ((-1 : Int), d :: (ip' ++ '.' :: fds)) from rfl]
    simp only []
    rw [hinf]
    simp only [Bool.false_eq_true, if_false]
    rw [hsplit]
    simp only [htake, hdrop]
    simp

/-- `mkRat` equals a rational exactly when cross-multiplication holds. -/
theorem mkRat_eq_iff' (n : Int) (d : Nat) (q : Rat) (hd : d ≠ 0) :
    mkRat n d = q ↔ n * (q.den : Int) = q.num * (d : Int) := by
  rw [← Rat.mkRat_self q, Rat.mkRat_eq_iff hd q.den_nz]
  rw [Rat.mkRat_self]

set_option maxHeartbeats 1600000 in
/-- Re-parsing the display of a `Float` whose reduced denominator is a
nontrivial product of twos and fives (so the display keeps a decimal point)
gives the float back, for every datetime parser: the display contains a
dot, which the datetime character scan rejects. -/
theorem roundtrip_float (p : Str → Option DTRec) (q : Rat) (a b : Nat)
    (hden : q.den = 2 ^ a * 5 ^ b) (hden1 : q.den ≠ 1) :
    Value.new p (Value.display (Value.Float q)) = Value.Float q := by
  have hdpos : 0 < q.den := Nat.pos_of_ne_zero q.den_nz
  have hak : a ≤ max (powCount 2 q.den q.den) (powCount 5 q.den q.den) :=
    le_trans
      (powCount_ge 2 (by norm_num) a q.den q.den hdpos
        (by rw [hden]; exact dvd_mul_right _ _) (le_refl _))
      (le_max_left _ _)
  have hbk : b ≤ max (powCount 2 q.den q.den) (powCount 5 q.den q.den) :=
    le_trans
      (powCount_ge 5 (by norm_num) b q.den q.den hdpos
        (by rw [hden]; exact dvd_mul_left _ _) (le_refl _))
      (le_max_right _ _)
  simp only [Value.display, displayFloat]
  set K := max (powCount 2 q.den q.den) (powCount 5 q.den q.den) with hK
  have hdvd10 : q.den ∣ 10 ^ K := by
    rw [hden, show (10 : Nat) = 2 * 5 from rfl, mul_pow]
    exact Nat.mul_dvd_mul (pow_dvd_pow 2 hak) (pow_dvd_pow 5 hbk)
  have hk1 : 1 ≤ K := by
    by_contra h
    have hk0 : K = 0 := by omega
    rw [hk0] at hdvd10
    simp at hdvd10
    exact hden1 hdvd10
  have hkne : ¬ K = 0 := by omega
  have hdvdInt : (q.den : Int) ∣ q.num * (10 : Int) ^ K := by
    refine Dvd.dvd.mul_left ?_ q.num
    have : ((q.den : Nat) : Int) ∣ ((10 ^ K : Nat) : Int) := Int.natCast_dvd_natCast.mpr hdvd10
    push_cast at this
    exact this
  set N : Int := q.num * (10 : Int) ^ K / (q.den : Int) with hN
  have hexact : N * (q.den : Int) = q.num * (10 : Int) ^ K := Int.ediv_mul_cancel hdvdInt
  set M : Nat := N.natAbs with hM
  set ip := (natDigitsRev (M / 10 ^ K)).reverse with hip
  set fds := padZeros K (natDigitsRev (M % 10 ^ K)).reverse with hfds
  have hipd : ∀ c ∈ ip, c.isDigit = true := fun c hc =>
    natDigitsRev_digits _ c (List.mem_reverse.mp hc)
  have hfdsd : ∀ c ∈ fds, c.isDigit = true :=
    padZeros_digits _ _ (fun c hc => natDigitsRev_digits _ c (List.mem_reverse.mp hc))
  have hipne : ip ≠ [] := by
    rw [hip]
    simp
    exact natDigitsRev_ne_nil _
  have hfdslen : fds.length = K := by
    rw [hfds]
    refine padZeros_length _ _ ?_
    rw [List.length_reverse]
    exact natDigitsRevFuel_length _ _ K (Nat.lt_succ_self _) hk1
      (Nat.mod_lt _ (by positivity))
  have hconcat : digitsToNat (ip ++ fds) = M := by
    rw [digitsToNat_append, hip, hfds, digitsToNat_padZeros]
    rw [digitsToNat_natDigitsRev, digitsToNat_natDigitsRev]
    rw [← hfds, hfdslen]
    rw [Nat.mul_comm (M / 10 ^ K) (10 ^ K)]
    exact Nat.div_add_mod M (10 ^ K)
  have hmkApp : ∀ x y : List Char, String.mk x ++ String.mk y = String.mk (x ++ y) :=
    fun x y => rfl
  have hdtc : ∀ sgn : List Char, (∀ c ∈ sgn, dtGood c = true) →
      dtCharCount (String.mk (sgn ++ (ip ++ '.' :: fds))) = none := by
    intro sgn hsgn
    rw [dtCharCount_mk]
    refine if_neg ?_
    intro h
    rw [List.all_eq_true] at h
    have := h '.' (by simp)
    revert this
    decide
  have hflc : ∀ sgn : List Char, (∀ c ∈ sgn, fltGood c = true) →
      (∀ c ∈ sgn, (fun c : Char => decide (c = '.')) c = false) →
      floatCharCount (String.mk (sgn ++ (ip ++ '.' :: fds))) = some 1 := by
    intro sgn hsgn hsgn2
    rw [floatCharCount_mk]
    rw [if_pos (by
      rw [List.all_eq_true]
      intro c hc
      rcases List.mem_append.mp hc with hc | hc
      · exact hsgn c hc
      · rcases List.mem_append.mp hc with hc | hc
        · exact fltGood_digit c (hipd c hc)
        · rcases List.mem_cons.mp hc with rfl | hc
          · decide
          · exact fltGood_digit c (hfdsd c hc))]
    rw [List.countP_append, List.countP_append]
    rw [List.countP_eq_zero.mpr (fun c hc => by simpa using hsgn2 c hc)]
    rw [List.countP_eq_zero.mpr (fun c hc => by simpa using digit_ne_dot c (hipd c hc))]
    rw [List.countP_cons_of_pos _ _ (by decide)]
    rw [List.countP_eq_zero.mpr (fun c hc => by simpa using digit_ne_dot c (hfdsd c hc))]
    rfl
  obtain ⟨hok, hval, hokn, hvaln⟩ := parseF64_decimal ip fds hipne hipd hfdsd
  rw [if_neg hkne]
  by_cases hsgn : q.num < 0
  · rw [if_pos hsgn]
    have hNneg : N < 0 := by
      by_contra hc
      push_neg at hc
      have h1 : 0 ≤ N * (q.den : Int) := by positivity
      rw [hexact] at h1
      have h2 : (0 : Int) < (10 : Int) ^ K := by positivity
      nlinarith
    have hstr : ("-" ++ natRepr (M / 10 ^ K) ++ "." ++ String.mk fds)
        = String.mk ('-' :: (ip ++ '.' :: fds)) := by
      rw [show ("-" : String) = String.mk ['-'] from rfl,
        show ("." : String) = String.mk ['.'] from rfl, natRepr, ← hip]
      rw [hmkApp, hmkApp, hmkApp]
      congr 1
      simp
    rw [hstr]
    rw [show ('-' :: (ip ++ '.' :: fds)) = ['-'] ++ (ip ++ '.' :: fds) from rfl] at hstr ⊢
    rw [valueNew_float_branch p _ (strMk_ne_empty _ (by simp))
      (hdtc ['-'] (by intro c hc; simp at hc; subst hc; decide))
      (hflc ['-'] (by intro c hc; simp at hc; subst hc; decide)
        (by intro c hc; simp at hc; subst hc; decide))
      (by
        rw [show (['-'] ++ (ip ++ '.' :: fds)) = '-' :: (ip ++ '.' :: fds) from rfl]
        exact hokn)]
    rw [show (['-'] ++ (ip ++ '.' :: fds)) = '-' :: (ip ++ '.' :: fds) from rfl]
    rw [hvaln]
    congr 1
    rw [hconcat, hfdslen]
    rw [mkRat_eq_iff' _ _ _ (by positivity)]
    have hMN : ((M : Int)) = -N := by
      rw [hM]
      omega
    rw [hMN]
    push_cast
    simp only [neg_neg]
    exact hexact
  · rw [if_neg hsgn]
    push_neg at hsgn
    have hNnn : 0 ≤ N := by
      by_contra hc
      push_neg at hc
      have h1 : N * (q.den : Int) < 0 := by
        apply mul_neg_of_neg_of_pos hc
        exact_mod_cast hdpos
      rw [hexact] at h1
      have h2 : (0 : Int) < (10 : Int) ^ K := by positivity
      nlinarith
    have hstr : ("" ++ natRepr (M / 10 ^ K) ++ "." ++ String.mk fds)
        = String.mk (ip ++ '.' :: fds) := by
      rw [show ("" : String) = String.mk [] from rfl,
        show ("." : String) = String.mk ['.'] from rfl, natRepr, ← hip]
      rw [hmkApp, hmkApp, hmkApp]
      congr 1
      simp
    rw [hstr]
    rw [valueNew_float_branch p _ (strMk_ne_empty _ (by simp [hipne]))
      (by
        have := hdtc [] (by intro c hc; simp at hc)
        simpa using this)
      (by
        have := hflc [] (by intro c hc; simp at hc) (by intro c hc; simp at hc)
        simpa using this)
      hok]
    rw [hval]
    congr 1
    rw [hconcat, hfdslen]
    rw [mkRat_eq_iff' _ _ _ (by positivity)]
    have hMN : ((M : Int)) = N := by
      rw [hM]
      omega
    rw [hMN]
    push_cast
    exact hexact

/-! ## Claim C9 : date and time round-trips -/

/-- Strings built from lists append by list concatenation. -/
theorem strMk_append (x y : List Char) : String.mk x ++ String.mk y = String.mk (x ++ y) := rfl

/-- The ISO date display as one character list. -/
theorem displayDate_list (d : DateRec) (h1 : 0 ≤ d.year) (h2 : d.year ≤ 9999) :
    displayDate d = String.mk
      (padZeros 4 (natDigitsRev d.year.toNat).reverse ++ '-' ::
        (padZeros 2 (natDigitsRev d.month).reverse ++ '-' ::
          padZeros 2 (natDigitsRev d.day).reverse)) := by
  simp only [displayDate, displayYear, pad2, if_pos (And.intro h1 h2)]
  rw [show ("-" : String) = String.mk ['-'] from rfl]
  simp only [strMk_append]
  congr 1
  simp

/-- The time display as one character list. -/
theorem displayTime_list (t : TimeRec) :
    displayTime t = String.mk
      (padZeros 2 (natDigitsRev t.hour).reverse ++ ':' ::
        (padZeros 2 (natDigitsRev t.minute).reverse ++ ':' ::
          padZeros 2 (natDigitsRev t.second).reverse)) := by
  simp only [displayTime, pad2]
  rw [show (":" : String) = String.mk [':'] from rfl]
  simp only [strMk_append]
  congr 1
  simp

/-- The datetime display as one character list. -/
theorem displayDT_list (dt : DTRec) (h1 : 0 ≤ dt.year) (h2 : dt.year ≤ 9999) :
    displayDT dt = String.mk
      ((padZeros 4 (natDigitsRev dt.year.toNat).reverse ++ '-' ::
        (padZeros 2 (natDigitsRev dt.month).reverse ++ '-' ::
          padZeros 2 (natDigitsRev dt.day).reverse)) ++ ' ' ::
       (padZeros 2 (natDigitsRev dt.hour).reverse ++ ':' ::
        (padZeros 2 (natDigitsRev dt.minute).reverse ++ ':' ::
          padZeros 2 (natDigitsRev dt.second).reverse))) := by
  simp only [displayDT]
  rw [displayDate_list dt.date h1 h2, displayTime_list dt.time]
  rw [show (" " : String) = String.mk [' '] from rfl]
  simp only [strMk_append]
  congr 1
  simp [DTRec.date, DTRec.time, List.append_assoc]

/-- A padded digit block is all digits. -/
theorem padBlock_digits (w n : Nat) : ∀ c ∈ padZeros w (natDigitsRev n).reverse, c.isDigit = true :=
  padZeros_digits w _ (fun c hc => natDigitsRev_digits n c (List.mem_reverse.mp hc))

/-- The datetime scan accepts a `digits-digits-digits` date string with
separator count 2. -/
theorem dtCharCount_sep2 (sep : Char) (hsep : dtSep sep = true)
    (Y MO DD : List Char)
    (hY : ∀ c ∈ Y, c.isDigit = true) (hMO : ∀ c ∈ MO, c.isDigit = true)
    (hDD : ∀ c ∈ DD, c.isDigit = true) :
    dtCharCount (String.mk (Y ++ sep :: (MO ++ sep :: DD))) = some 2 := by
  rw [dtCharCount_mk]
  have hgood : dtGood sep = true := by simp [dtGood, hsep]
  rw [if_pos (by
    rw [List.all_eq_true]
    intro c hc
    rcases List.mem_append.mp hc with hc | hc
    · exact dtGood_digit c (hY c hc)
    · rcases List.mem_cons.mp hc with rfl | hc
      · exact hgood
      · rcases List.mem_append.mp hc with hc | hc
        · exact dtGood_digit c (hMO c hc)
        · rcases List.mem_cons.mp hc with rfl | hc
          · exact hgood
          · exact dtGood_digit c (hDD c hc))]
  rw [List.countP_append]
  rw [List.countP_eq_zero.mpr (fun c hc => by simp [dtSep_digit c (hY c hc)])]
  rw [List.countP_cons_of_pos _ _ hsep]
  rw [List.countP_append]
  rw [List.countP_eq_zero.mpr (fun c hc => by simp [dtSep_digit c (hMO c hc)])]
  rw [List.countP_cons_of_pos _ _ hsep]
  rw [List.countP_eq_zero.mpr (fun c hc => by simp [dtSep_digit c (hDD c hc)])]
  rfl

/-- The datetime scan accepts a full `date space time` string with
separator count 4. -/
theorem dtCharCount_sep4 (D T : List Char)
    (hD : dtCharCount (String.mk D) = some 2) (hT : dtCharCount (String.mk T) = some 2) :
    dtCharCount (String.mk (D ++ ' ' :: T)) = some 4 := by
  rw [dtCharCount_mk] at hD hT ⊢
  by_cases hallD : D.all dtGood = true
  · by_cases hallT : T.all dtGood = true
    · rw [if_pos hallD] at hD
      rw [if_pos hallT] at hT
      rw [if_pos (by
        rw [List.all_eq_true] at hallD hallT ⊢
        intro c hc
        rcases List.mem_append.mp hc with hc | hc
        · exact hallD c hc
        · rcases List.mem_cons.mp hc with rfl | hc
          · decide
          · exact hallT c hc)]
      rw [List.countP_append, List.countP_cons_of_neg _ _ (by decide)]
      have hDc : List.countP dtSep D = 2 := by
        have := Option.some.inj hD
        exact_mod_cast this
      have hTc : List.countP dtSep T = 2 := by
        have := Option.some.inj hT
        exact_mod_cast this
      rw [hDc, hTc]
      rfl
    · rw [if_neg hallT] at hT
      cases hT
  · rw [if_neg hallD] at hD
    cases hD

/-- Re-parsing the ISO display of a `Date` (year 1–9999) gives it back,
provided the external parser re-parses the display to the original fields
at midnight. -/
theorem roundtrip_date (p : Str → Option DTRec) (d : DateRec)
    (h1 : 1 ≤ d.year) (h2 : d.year ≤ 9999)
    (hp : p (Value.display (Value.Date d)) = some ⟨d.year, d.month, d.day, 0, 0, 0⟩) :
    Value.new p (Value.display (Value.Date d)) = Value.Date d := by
  have hlist := displayDate_list d (by omega) h2
  have hdt : dtCharCount (Value.display (Value.Date d)) = some 2 := by
    show dtCharCount (displayDate d) = some 2
    rw [hlist]
    exact dtCharCount_sep2 '-' (by decide) _ _ _ (padBlock_digits 4 _)
      (padBlock_digits 2 _) (padBlock_digits 2 _)
  have hne : ¬ Value.display (Value.Date d) = "" := by
    show ¬ displayDate d = ""
    rw [hlist]
    exact strMk_ne_empty _ (by simp)
  rw [valueNew_dt_branch p _ 2 ⟨d.year, d.month, d.day, 0, 0, 0⟩ hne hdt (by norm_num) hp]
  rw [if_neg (by simp; omega), if_pos rfl]
  rfl

/-- Re-parsing the display of a `Time` gives it back, provided the external
parser re-parses the display with the year-0 sentinel. -/
theorem roundtrip_time (p : Str → Option DTRec) (t : TimeRec)
    (hp : p (Value.display (Value.Time t)) = some ⟨0, 1, 1, t.hour, t.minute, t.second⟩) :
    Value.new p (Value.display (Value.Time t)) = Value.Time t := by
  have hlist := displayTime_list t
  have hdt : dtCharCount (Value.display (Value.Time t)) = some 2 := by
    show dtCharCount (displayTime t) = some 2
    rw [hlist]
    exact dtCharCount_sep2 ':' (by decide) _ _ _ (padBlock_digits 2 _)
      (padBlock_digits 2 _) (padBlock_digits 2 _)
  have hne : ¬ Value.display (Value.Time t) = "" := by
    show ¬ displayTime t = ""
    rw [hlist]
    exact strMk_ne_empty _ (by simp)
  rw [valueNew_dt_branch p _ 2 ⟨0, 1, 1, t.hour, t.minute, t.second⟩ hne hdt (by norm_num) hp]
  rw [if_pos rfl]
  rfl

/-- Re-parsing the display of a `DateTime` with nonzero hour (as every
`DateTime` produced by `Value::new` has) gives it back, provided the
external parser re-parses the display exactly. -/
theorem roundtrip_datetime (p : Str → Option DTRec) (dt : DTRec)
    (h1 : 1 ≤ dt.year) (h2 : dt.year ≤ 9999) (h3 : dt.hour ≠ 0)
    (hp : p (Value.display (Value.DateTime dt)) = some dt) :
    Value.new p (Value.display (Value.DateTime dt)) = Value.DateTime dt := by
  have hlist := displayDT_list dt (by omega) h2
  have hdt : dtCharCount (Value.display (Value.DateTime dt)) = some 4 := by
    show dtCharCount (displayDT dt) = some 4
    rw [hlist]
    refine dtCharCount_sep4 _ _ ?_ ?_
    · exact dtCharCount_sep2 '-' (by decide) _ _ _ (padBlock_digits 4 _)
        (padBlock_digits 2 _) (padBlock_digits 2 _)
    · exact dtCharCount_sep2 ':' (by decide) _ _ _ (padBlock_digits 2 _)
        (padBlock_digits 2 _) (padBlock_digits 2 _)
  have hne : ¬ Value.display (Value.DateTime dt) = "" := by
    show ¬ displayDT dt = ""
    rw [hlist]
    exact strMk_ne_empty _ (by simp)
  rw [valueNew_dt_branch p _ 4 dt hne hdt (by norm_num) hp]
  rw [if_neg (by omega), if_neg h3]

/-! ## Claim C9 : the claim -/

/-- C9 counterexample: `Float(1.0)` is produced by `parse("1.0")`, but its
display is `"1"` (Rust drops the decimal point on integral floats), which
re-parses as `Integer(1)` — a different variant, so
`parse(display(v)) ≠ v` for this parse-produced non-String value. -/
theorem c9_counterexample :
    Value.new (fun _ => none) "1.0" = Value.Float 1 ∧
    Value.display (Value.Float 1) = "1" ∧
    Value.new (fun _ => none) (Value.display (Value.Float 1)) = Value.Integer 1 ∧
    Value.Integer 1 ≠ Value.Float 1 := by
  refine ⟨by decide, by decide, by decide, by decide⟩

/-- C9 amended: `parse(display(v)) = v` holds for `Empty`, for in-range
`Integer`s (negative ones under the external parser's rejection of their
minus-prefixed display, which does re-enter the parser), for every `Float`
whose display keeps a decimal point (reduced denominator a nontrivial
product of twos and fives — exactly the floats whose display has a
fractional part), and for `Date`/`Time`/`DateTime` values under the
spec-stated external parser behaviour on their displays (ISO re-parse,
year-0 sentinel for times); it FAILS for `Float` values of integral
magnitude, whose display drops the decimal point and re-parses as an
`Integer` of a different variant. -/
theorem c9_parse_display_roundtrip (p : Str → Option DTRec) :
    (Value.new p (Value.display Value.Empty) = Value.Empty) ∧
    (∀ i : Int, 0 ≤ i → i < 2 ^ 63 →
      Value.new p (Value.display (Value.Integer i)) = Value.Integer i) ∧
    (∀ i : Int, -(2 ^ 63) ≤ i → i < 0 →
      p (Value.display (Value.Integer i)) = none →
      Value.new p (Value.display (Value.Integer i)) = Value.Integer i) ∧
    (∀ (q : Rat) (a b : Nat), q.den = 2 ^ a * 5 ^ b → q.den ≠ 1 →
      Value.new p (Value.display (Value.Float q)) = Value.Float q) ∧
    (Value.new p (Value.display (Value.Float 1)) = Value.Integer 1 ∧
      Value.Integer 1 ≠ Value.Float 1) ∧
    (∀ d : DateRec, 1 ≤ d.year → d.year ≤ 9999 →
      p (Value.display (Value.Date d)) = some ⟨d.year, d.month, d.day, 0, 0, 0⟩ →
      Value.new p (Value.display (Value.Date d)) = Value.Date d) ∧
    (∀ t : TimeRec,
      p (Value.display (Value.Time t)) = some ⟨0, 1, 1, t.hour, t.minute, t.second⟩ →
      Value.new p (Value.display (Value.Time t)) = Value.Time t) ∧
    (∀ dt : DTRec, 1 ≤ dt.year → dt.year ≤ 9999 → dt.hour ≠ 0 →
      p (Value.display (Value.DateTime dt)) = some dt →
      Value.new p (Value.display (Value.DateTime dt)) = Value.DateTime dt) := by
  refine ⟨rfl, ?_, ?_, ?_, ⟨rfl, by decide⟩, ?_, ?_, ?_⟩
  · intro i h0 h63
    exact roundtrip_int_nonneg p i h0 h63
  · intro i h63 hneg hp
    exact roundtrip_int_neg p i hneg h63 hp
  · intro q a b hden hden1
    exact roundtrip_float p q a b hden hden1
  · intro d h1 h2 hp
    exact roundtrip_date p d h1 h2 hp
  · intro t hp
    exact roundtrip_time p t hp
  · intro dt h1 h2 h3 hp
    exact roundtrip_datetime p dt h1 h2 h3 hp

/-- C9 witness: the round-trip theorem applied to a concrete parser that
behaves on the five relevant display strings exactly as the spec states of
`dtparse`, at concrete values of every variant. -/
theorem c9_parse_display_roundtrip_witness :
    (Value.new
      (fun s =>
        if s = "2020-01-02" then some ⟨2020, 1, 2, 0, 0, 0⟩
        else if s = "17:34:45" then some ⟨0, 1, 1, 17, 34, 45⟩
        else if s = "2020-01-02 17:34:45" then some ⟨2020, 1, 2, 17, 34, 45⟩
        else none)
      (Value.display Value.Empty) = Value.Empty) ∧
    (Value.new
      (fun s =>
        if s = "2020-01-02" then some ⟨2020, 1, 2, 0, 0, 0⟩
        else if s = "17:34:45" then some ⟨0, 1, 1, 17, 34, 45⟩
        else if s = "2020-01-02 17:34:45" then some ⟨2020, 1, 2, 17, 34, 45⟩
        else none)
      (Value.display (Value.Integer 123456)) = Value.Integer 123456) ∧
    (Value.new
      (fun s =>
        if s = "2020-01-02" then some ⟨2020, 1, 2, 0, 0, 0⟩
        else if s = "17:34:45" then some ⟨0, 1, 1, 17, 34, 45⟩
        else if s = "2020-01-02 17:34:45" then some ⟨2020, 1, 2, 17, 34, 45⟩
        else none)
      (Value.display (Value.Integer (-5))) = Value.Integer (-5)) ∧
    (Value.new
      (fun s =>
        if s = "2020-01-02" then some ⟨2020, 1, 2, 0, 0, 0⟩
        else if s = "17:34:45" then some ⟨0, 1, 1, 17, 34, 45⟩
        else if s = "2020-01-02 17:34:45" then some ⟨2020, 1, 2, 17, 34, 45⟩
        else none)
      (Value.display (Value.Float (mkRat 3 2))) = Value.Float (mkRat 3 2)) ∧
    (Value.new
      (fun s =>
        if s = "2020-01-02" then some ⟨2020, 1, 2, 0, 0, 0⟩
        else if s = "17:34:45" then some ⟨0, 1, 1, 17, 34, 45⟩
        else if s = "2020-01-02 17:34:45" then some ⟨2020, 1, 2, 17, 34, 45⟩
        else none)
      (Value.display (Value.Date ⟨2020, 1, 2⟩)) = Value.Date ⟨2020, 1, 2⟩) ∧
    (Value.new
      (fun s =>
        if s = "2020-01-02" then some ⟨2020, 1, 2, 0, 0, 0⟩
        else if s = "17:34:45" then some ⟨0, 1, 1, 17, 34, 45⟩
        else if s = "2020-01-02 17:34:45" then some ⟨2020, 1, 2, 17, 34, 45⟩
        else none)
      (Value.display (Value.Time ⟨17, 34, 45⟩)) = Value.Time ⟨17, 34, 45⟩) ∧
    (Value.new
      (fun s =>
        if s = "2020-01-02" then some ⟨2020, 1, 2, 0, 0, 0⟩
        else if s = "17:34:45" then some ⟨0, 1, 1, 17, 34, 45⟩
        else if s = "2020-01-02 17:34:45" then some ⟨2020, 1, 2, 17, 34, 45⟩
        else none)
      (Value.display (Value.DateTime ⟨2020, 1, 2, 17, 34, 45⟩))
        = Value.DateTime ⟨2020, 1, 2, 17, 34, 45⟩) := by
  refine ⟨(c9_parse_display_roundtrip _).1,
    (c9_parse_display_roundtrip _).2.1 123456 (by decide) (by decide),
    (c9_parse_display_roundtrip _).2.2.1 (-5) (by decide) (by decide) (by decide),
    (c9_parse_display_roundtrip _).2.2.2.1 (mkRat 3 2) 1 0 (by decide) (by decide),
    (c9_parse_display_roundtrip _).2.2.2.2.2.1 ⟨2020, 1, 2⟩ (by decide) (by decide) (by decide),
    (c9_parse_display_roundtrip _).2.2.2.2.2.2.1 ⟨17, 34, 45⟩ (by decide),
    (c9_parse_display_roundtrip _).2.2.2.2.2.2.2 ⟨2020, 1, 2, 17, 34, 45⟩
      (by decide) (by decide) (by decide) (by decide)⟩

end LTab
